import Mathlib

/-!
Verification of the recipe execution engine
(`amplifier_module_tool_recipes`): a shallow embedding of the Python
sources in Lean 4, followed by theorems about the embedded functions.

Modelling conventions:
* Python's loose JSON-ish values become the inductive `Value`; Python
  dicts become insertion-ordered association lists with unique keys
  (`Ctx`), mirroring dict iteration order and `dict[k] = v` semantics.
* Python strings are handled as `List Char` internally; regular
  expressions of the source are replaced by equivalent hand-rolled
  scanners over `List Char` (the equivalence is argued per pattern in
  the comments at each scanner).
* `re.sub`-style recursion and the recursive expression evaluator use
  an explicit fuel argument, always instantiated with `length + 1`,
  which is sufficient because every recursive call consumes at least
  one character.
* Timestamps are modelled as opaque strings (the engine never inspects
  them except for approval timeouts, which take an ambient elapsed-time
  parameter), and file-system session state becomes a pure store.
-/

namespace Recipes

/-- Single-quote character, written via its code point. -/
def q1 : Char := Char.ofNat 39

/-- Double-quote character. -/
def q2 : Char := Char.ofNat 34

/-- Left brace character. -/
def lb : Char := Char.ofNat 123

/-- Right brace character. -/
def rb : Char := Char.ofNat 125

/-- Single-quote as a one-character string. -/
def sq : String := String.mk [q1]

/-- Wrap a string in single quotes, as the Python f-strings `'{x}'` do. -/
def quoted (s : String) : String := sq ++ s ++ sq

/-- Python `\w` word character (ASCII approximation: alphanumeric or underscore). -/
def wordChar (c : Char) : Bool := c.isAlphanum || c == '_'

/-- Python values that can appear in a recipe context
(`str | int | bool | list | dict | None`). -/
inductive Value where
  | str (s : String)
  | int (n : Int)
  | bool (b : Bool)
  | list (xs : List Value)
  | dict (xs : List (String × Value))
  | null

instance : Inhabited Value := ⟨Value.null⟩

/-- A Python dict used as execution context: insertion-ordered association list. -/
abbrev Ctx := List (String × Value)

/-- Dict lookup (`d.get(k)` / `k in d` plus `d[k]`). -/
def ctxLookup : Ctx → String → Option Value
  | [], _ => none
  | (k, v) :: rest, key => if k == key then some v else ctxLookup rest key

/-- Dict assignment `d[k] = v`: replace in place, else append (insertion order). -/
def ctxSet : Ctx → String → Value → Ctx
  | [], key, v => [(key, v)]
  | (k, w) :: rest, key, v =>
    if k == key then (k, v) :: rest else (k, w) :: ctxSet rest key v

/-- Dict deletion `del d[k]`. -/
def ctxDel : Ctx → String → Ctx
  | [], _ => []
  | (k, w) :: rest, key => if k == key then rest else (k, w) :: ctxDel rest key

/-- `{**a, **b}`: merge `b` over `a`, keeping `a`'s insertion order for shared keys. -/
def ctxMerge (a b : Ctx) : Ctx := b.foldl (fun acc kv => ctxSet acc kv.1 kv.2) a

/-- Dict key list, in insertion order (`d.keys()`). -/
def ctxKeys (ctx : Ctx) : List String := ctx.map (·.1)

/-- Lexicographic code-point order on char lists (Python string `<=`). -/
def lexLe : List Char → List Char → Bool
  | [], _ => true
  | _ :: _, [] => false
  | a :: as_, b :: bs =>
    if a.val < b.val then true
    else if a.val > b.val then false
    else lexLe as_ bs

/-- String order as Python compares strings for `sorted`. -/
def strLe (a b : String) : Bool := lexLe a.data b.data

/-- Insert into a sorted list of strings. -/
def insertSorted (s : String) : List String → List String
  | [] => [s]
  | t :: ts => if strLe s t then s :: t :: ts else t :: insertSorted s ts

/-- Python `sorted` on a list of strings (insertion sort; order agrees). -/
def sortStrings : List String → List String
  | [] => []
  | s :: ss => insertSorted s (sortStrings ss)

/-- `", ".join(sorted(keys))` as used in substitution error messages. -/
def joinSortedKeys (ctx : Ctx) : String :=
  String.intercalate ", " (sortStrings (ctxKeys ctx))

mutual
/-- Python `str(value)`: strings verbatim, `True`/`False`, decimal ints,
`None`, and the `repr`-based rendering for lists and dicts.  String
escaping inside `repr` is not modelled (no claim depends on it). -/
def Value.pyStr : Value → String
  | .str s => s
  | .int n => toString n
  | .bool b => if b then "True" else "False"
  | .null => "None"
  | .list xs => "[" ++ Value.pyStrList xs ++ "]"
  | .dict xs => String.mk [lb] ++ Value.pyStrDict xs ++ String.mk [rb]

/-- Python `repr(value)` (quotes strings; Python picks `"` when the string
contains `'`). -/
def Value.pyRepr : Value → String
  | .str s =>
    if s.data.contains q1 then String.mk [q2] ++ s ++ String.mk [q2]
    else sq ++ s ++ sq
  | .int n => toString n
  | .bool b => if b then "True" else "False"
  | .null => "None"
  | .list xs => "[" ++ Value.pyStrList xs ++ "]"
  | .dict xs => String.mk [lb] ++ Value.pyStrDict xs ++ String.mk [rb]

/-- `", ".join(repr(x) for x in xs)`. -/
def Value.pyStrList : List Value → String
  | [] => ""
  | [v] => Value.pyRepr v
  | v :: rest => Value.pyRepr v ++ ", " ++ Value.pyStrList rest

/-- `", ".join(f"<repr k>: <repr v>")` for dict rendering. -/
def Value.pyStrDict : List (String × Value) → String
  | [] => ""
  | [(k, v)] => quoted k ++ ": " ++ Value.pyRepr v
  | (k, v) :: rest => quoted k ++ ": " ++ Value.pyRepr v ++ ", " ++ Value.pyStrDict rest
end

/-- Python `type(value).__name__` for the foreach error message. -/
def Value.typeName : Value → String
  | .str _ => "str"
  | .int _ => "int"
  | .bool _ => "bool"
  | .list _ => "list"
  | .dict _ => "dict"
  | .null => "NoneType"

/-- Python whitespace test for `str.strip()` (ASCII approximation). -/
def pyWs (c : Char) : Bool := c.isWhitespace

/-- Python `str.strip()` on a char list. -/
def pyStrip (cs : List Char) : List Char :=
  ((cs.dropWhile pyWs).reverse.dropWhile pyWs).reverse

/-- Boolean prefix test on char lists. -/
def prefOf : List Char → List Char → Bool
  | [], _ => true
  | _ :: _, [] => false
  | p :: ps, c :: cs => p == c && prefOf ps cs

/-- Find the first occurrence of `pat` and split around it:
models both Python `pat in s` (via `isSome`) and `s.split(pat, 1)`. -/
def splitFirst (pat : List Char) : List Char → Option (List Char × List Char)
  | [] => if pat.isEmpty then some ([], []) else none
  | c :: cs =>
    if prefOf pat (c :: cs) then some ([], (c :: cs).drop pat.length)
    else
      match splitFirst pat cs with
      | some (l, r) => some (c :: l, r)
      | none => none

/-- Last element of a char list, with default. -/
def lastD (cs : List Char) (d : Char) : Char :=
  match cs.reverse with
  | [] => d
  | c :: _ => c

/-- `s.lower() == lit` for a char list against a lowercase literal. -/
def lowerEq (cs : List Char) (lit : String) : Bool :=
  cs.map Char.toLower == lit.data

/-!
### Variable-reference scanners

The executor's `substitute_variables` uses the regex
`\{\{(\w+(?:\.\w+)?)\}\}` (at most one dot); `_resolve_foreach_variable`
and the expression evaluator use `\{\{(\w+(?:\.\w+)*)\}\}` (any number
of dots).  Both are implemented as deterministic scanners: because a
maximal `\w+` run can never shrink usefully (the character after it
matches neither `\.` nor `\}`), the greedy-with-backtracking regex
semantics coincide with the greedy-no-backtracking scan below.

`refScan` consumes the characters after `{{`, accumulating the group.
`seen` records whether the current dotted segment already has at least
one word character; `dots` counts dots consumed; `maxDots` is `1` for
the executor pattern and `none` (unbounded) for the star pattern.
-/
def refScan (maxDots : Option Nat) (acc : List Char) (seen : Bool) (dots : Nat) :
    List Char → Option (List Char × List Char)
  | [] => none
  | c :: cs =>
    if wordChar c then refScan maxDots (acc ++ [c]) true dots cs
    else if !seen then none
    else if c == '.' then
      match maxDots with
      | some m => if dots < m then refScan maxDots (acc ++ [c]) false (dots + 1) cs else none
      | none => refScan maxDots (acc ++ [c]) false (dots + 1) cs
    else if c == rb then
      match cs with
      | c2 :: cs2 => if c2 == rb then some (acc, cs2) else none
      | [] => none
    else none

/-- Exception-style result plumbing for `Except`. -/
def bindEx {α β : Type} (r : Except String α) (f : α → Except String β) : Except String β :=
  match r with
  | .ok a => f a
  | .error e => .error e

/-- One generic `re.sub` pass: scan for `{{ref}}` (with the given dot
bound), replace matches via `repl`, copy other characters.  The
replacement text is not rescanned, exactly as `re.sub` behaves.  `fuel`
is consumed once per recursive call; `length + 1` always suffices. -/
def substAux (maxDots : Option Nat) (repl : List Char → Except String (List Char)) :
    Nat → List Char → Except String (List Char)
  | 0, _ => .error "fuel"
  | _ + 1, [] => .ok []
  | fuel + 1, c :: cs =>
    if c == lb then
      match cs with
      | c2 :: cs2 =>
        if c2 == lb then
          match refScan maxDots [] false 0 cs2 with
          | some (ref, rest) =>
            bindEx (repl ref) fun r =>
              bindEx (substAux maxDots repl fuel rest) fun tail => .ok (r ++ tail)
          | none =>
            bindEx (substAux maxDots repl fuel cs) fun tail => .ok (c :: tail)
        else
          bindEx (substAux maxDots repl fuel cs) fun tail => .ok (c :: tail)
      | [] => .ok [c]
    else
      bindEx (substAux maxDots repl fuel cs) fun tail => .ok (c :: tail)

/-- Split a dotted reference on `.` (Python `var_ref.split(".")`). -/
def splitDots : List Char → List (List Char)
  | [] => [[]]
  | c :: cs =>
    if c == '.' then [] :: splitDots cs
    else
      match splitDots cs with
      | [] => [[c]]
      | p :: ps => (c :: p) :: ps

/-- Walk a dotted path through nested dicts
(`isinstance(value, dict) and part in value`). -/
def walkPath : List String → Value → Option Value
  | [], v => some v
  | p :: ps, .dict d =>
    match ctxLookup d p with
    | some v => walkPath ps v
    | none => none
  | _ :: _, _ => none

/-- The executor's undefined-variable message:
`Undefined variable: {{ref}}. Available variables: <sorted keys>`. -/
def undefinedVarMsg (ref : List Char) (ctx : Ctx) : String :=
  "Undefined variable: \x7b\x7b" ++ String.mk ref ++ "\x7d\x7d. Available variables: " ++
    joinSortedKeys ctx

/-- Replacement handler of `RecipeExecutor.substitute_variables`:
resolve the (≤ one dot) reference and stringify, else raise the
`Undefined variable` error listing the sorted top-level keys. -/
def substReplace (ctx : Ctx) (ref : List Char) : Except String (List Char) :=
  let parts := splitDots ref
  if parts.length ≥ 2 then
    match walkPath (parts.map String.mk) (.dict ctx) with
    | some v => .ok (Value.pyStr v).data
    | none => .error (undefinedVarMsg ref ctx)
  else
    match ctxLookup ctx (String.mk ref) with
    | some v => .ok (Value.pyStr v).data
    | none => .error (undefinedVarMsg ref ctx)

/-- `RecipeExecutor.substitute_variables(template, context)`:
replace every `{{ident(.ident)?}}` (pattern allows at most one dot),
raising `ValueError` for unresolved references. -/
def substituteVariables (template : String) (ctx : Ctx) : Except String String :=
  match substAux (some 1) (substReplace ctx) (template.data.length + 1) template.data with
  | .ok cs => .ok (String.mk cs)
  | .error e => .error e

/-!
### Expression evaluator (`expression_evaluator.py`)
-/

/-- `_resolve_variable(path, context)`: walk the dotted path through
dicts, returning `none` where Python returns `None` (missing key or
non-dict intermediate). -/
def resolveVariable (path : List Char) (ctx : Ctx) : Option Value :=
  walkPath ((splitDots path).map String.mk) (.dict ctx)

/-- Replacement handler of the evaluator's `_substitute_variables`:
a resolved `None` value and an unresolved path both raise
`Undefined variable: <path>`; strings are re-quoted, booleans become
`true`/`false`, everything else is `str(value)`. -/
def exprReplace (ctx : Ctx) (ref : List Char) : Except String (List Char) :=
  match resolveVariable ref ctx with
  | none => .error ("Undefined variable: " ++ String.mk ref)
  | some .null => .error ("Undefined variable: " ++ String.mk ref)
  | some (.str s) => .ok (q1 :: s.data ++ [q1])
  | some (.bool b) => .ok (if b then "true".data else "false".data)
  | some v => .ok (Value.pyStr v).data

/-- The evaluator's `_substitute_variables` pass (star pattern: any
number of dots). -/
def exprSubstitute (cs : List Char) (ctx : Ctx) : Except String (List Char) :=
  substAux none (exprReplace ctx) (cs.length + 1) cs

/-- Token produced by `_parse_value`: a string or a boolean. -/
inductive Tok where
  | vstr (s : List Char)
  | vbool (b : Bool)

/-- `_parse_value(token)`: strip, unquote single/double-quoted literals,
recognize `true`/`false` case-insensitively, else keep the bareword. -/
def parseValue (t0 : List Char) : Tok :=
  let t := pyStrip t0
  match t with
  | [] => .vstr []
  | c :: cs =>
    if c == q1 && lastD (c :: cs) q2 == q1 then .vstr cs.dropLast
    else if c == q2 && lastD (c :: cs) q1 == q2 then .vstr cs.dropLast
    else if lowerEq (c :: cs) "true" then .vbool true
    else if lowerEq (c :: cs) "false" then .vbool false
    else .vstr (c :: cs)

/-- Python `==` on the parsed tokens (`str == bool` is `False`). -/
def tokEq : Tok → Tok → Bool
  | .vstr a, .vstr b => a == b
  | .vbool a, .vbool b => a == b
  | _, _ => false

/-- `_evaluate_expression(expr)`: strip, split on the first ` or `, then
` and `, then `==`/`!=` (in that order), short-circuiting exactly as
Python's `or`/`and` do; a remaining single token must be `true`/`false`.
`fuel` is consumed per recursive call; the split parts are strictly
shorter, so `length + 1` suffices. -/
def evalExprAux : Nat → List Char → Except String Bool
  | 0, _ => .error "fuel"
  | fuel + 1, cs =>
    let expr := pyStrip cs
    match splitFirst " or ".data expr with
    | some (l, r) =>
      bindEx (evalExprAux fuel l) fun bl =>
        if bl then .ok true else evalExprAux fuel r
    | none =>
      match splitFirst " and ".data expr with
      | some (l, r) =>
        bindEx (evalExprAux fuel l) fun bl =>
          if bl then evalExprAux fuel r else .ok false
      | none =>
        match splitFirst "==".data expr with
        | some (l, r) => .ok (tokEq (parseValue l) (parseValue r))
        | none =>
          match splitFirst "!=".data expr with
          | some (l, r) => .ok (!tokEq (parseValue l) (parseValue r))
          | none =>
            if lowerEq expr "true" then .ok true
            else if lowerEq expr "false" then .ok false
            else .error ("Invalid expression syntax: " ++ String.mk expr)

/-- `evaluate_condition(expression, context)`: empty/whitespace is
`True`; otherwise substitute variables then evaluate. -/
def evaluateCondition (expression : String) (ctx : Ctx) : Except String Bool :=
  if (pyStrip expression.data).isEmpty then .ok true
  else
    bindEx (exprSubstitute expression.data ctx) fun sub =>
      evalExprAux (sub.length + 1) sub

end Recipes

namespace Recipes

/-!
### Data model (`models.py`)

Only the fields the executor reads are modelled.  Python falsy checks on
optional strings (`if step.condition:` treats `""` like `None`) are
mirrored by `truthyOpt`.
-/

/-- `step.retry` dict with the `.get` defaults of `execute_step_with_retry`. -/
structure RetryConfig where
  maxAttempts : Nat := 1
  backoff : String := "exponential"
  initialDelay : Nat := 5
  maxDelay : Nat := 300
deriving DecidableEq

/-- `RecursionConfig` (defaults 5 / 100). -/
structure RecursionConfig where
  maxDepth : Nat := 5
  maxTotalSteps : Nat := 100
deriving DecidableEq

/-- `ApprovalConfig` (field `default` is renamed `defaultAction`). -/
structure ApprovalConfig where
  required : Bool := false
  prompt : String := ""
  timeout : Nat := 0
  defaultAction : String := "deny"
deriving DecidableEq

/-- `Step` — the YAML `as` field is `asVar`, step-level `context` is `stepContext`. -/
structure Step where
  id : String
  agent : Option String := none
  prompt : Option String := none
  mode : Option String := none
  type : String := "agent"
  recipe : Option String := none
  stepContext : Ctx := []
  output : Option String := none
  condition : Option String := none
  foreach : Option String := none
  asVar : Option String := none
  collect : Option String := none
  parallel : Bool := false
  maxIterations : Nat := 100
  retry : Option RetryConfig := none
  onError : String := "fail"
  recursion : Option RecursionConfig := none

/-- `Stage`. -/
structure Stage where
  name : String
  steps : List Step
  approval : Option ApprovalConfig := none

/-- `Recipe` (flat `steps` or staged `stages`). -/
structure Recipe where
  name : String
  description : String := ""
  version : String := ""
  steps : List Step := []
  stages : List Stage := []
  context : Ctx := []
  recursion : Option RecursionConfig := none

/-- `Recipe.is_staged`. -/
def Recipe.isStaged (r : Recipe) : Bool := !r.stages.isEmpty

/-- Python truthiness of an optional string field (`None` and `""` are falsy). -/
def truthyOpt : Option String → Bool
  | none => false
  | some s => s != ""

/-!
### Recursion tracking (`RecursionState`)
-/

/-- `RecursionState`: depth and total-step accounting. -/
structure RecursionState where
  currentDepth : Nat := 0
  totalSteps : Nat := 0
  maxDepth : Nat := 5
  maxTotalSteps : Nat := 100
  recipeStack : List String := []
deriving DecidableEq

/-!
### Execution-level errors and state

Exceptions become the `ExecErr` sum; the file system (session store),
the spawner invocation log and the retry sleeps become the pure
`ExecState` threaded through every function.  `trace` records each
spawner call together with the id of the step that issued it (the
observation needed to state "the spawner is invoked for step `i`").
-/

/-- Exception taxonomy of the executor. -/
inductive ExecErr where
  | valueError (msg : String)
  | stepFailure (msg : String)
  | skipRemaining
  | approvalPaused (sessionId : String) (stageName : String) (prompt : String)
  | fileNotFound (msg : String)
  | fuelExhausted
deriving DecidableEq

/-- Python `str(exception)` as used when wrapping errors in f-strings. -/
def ExecErr.pyMsg : ExecErr → String
  | .valueError m => m
  | .stepFailure m => m
  | .skipRemaining => ""
  | .approvalPaused _ stage _ =>
    "Execution paused at stage " ++ quoted stage ++ " awaiting approval"
  | .fileNotFound m => m
  | .fuelExhausted => "fuel exhausted"

/-- One spawner invocation, recorded with the issuing step's id. -/
structure SpawnCall where
  stepId : String
  agent : String
  instruction : String
deriving DecidableEq

/-- `state.json` contents, as a record with the `.get` defaults the code
uses for absent keys.  The approval-history reason is `""` for `None`. -/
structure SessionState where
  sessionId : String := ""
  recipeName : String := ""
  recipeVersion : String := ""
  started : String := ""
  currentStepIndex : Nat := 0
  currentStageIndex : Nat := 0
  currentStepInStage : Nat := 0
  context : Ctx := []
  completedSteps : List String := []
  completedStages : List String := []
  projectPath : String := ""
  isStaged : Bool := false
  pendingApprovalStage : Option String := none
  pendingApprovalPrompt : String := ""
  pendingApprovalTimeout : Nat := 0
  pendingApprovalDefault : String := "deny"
  pendingApprovalRequestedAt : Option String := none
  stageApprovals : List (String × String) := []
  approvalHistory : List (String × String × String) := []

/-- Lookup in a string-keyed association list. -/
def sLookup : List (String × String) → String → Option String
  | [], _ => none
  | (k, v) :: rest, key => if k == key then some v else sLookup rest key

/-- Assignment in a string-keyed association list (replace or append). -/
def sSet : List (String × String) → String → String → List (String × String)
  | [], key, v => [(key, v)]
  | (k, w) :: rest, key, v =>
    if k == key then (k, v) :: rest else (k, w) :: sSet rest key v

/-- The world the executor mutates: session files, spawner log, sleeps. -/
structure ExecState where
  store : List (String × SessionState) := []
  nextSession : Nat := 0
  spawnCount : Nat := 0
  trace : List SpawnCall := []
  sleeps : List Nat := []

/-- Lookup a session file. -/
def storeLookup : List (String × SessionState) → String → Option SessionState
  | [], _ => none
  | (k, v) :: rest, key => if k == key then some v else storeLookup rest key

/-- Write a session file (overwrite or create). -/
def storeSet : List (String × SessionState) → String → SessionState →
    List (String × SessionState)
  | [], key, v => [(key, v)]
  | (k, w) :: rest, key, v =>
    if k == key then (k, v) :: rest else (k, w) :: storeSet rest key v

/-- Ambient environment: the external agent spawner (indexed by the
global invocation count), the sub-recipe files (`Recipe.from_yaml`,
keyed by the substituted path), and the elapsed seconds used by
approval-timeout checks. -/
structure Env where
  spawnFn : Nat → String → String → Except String Value
  recipes : String → Option Recipe := fun _ => none
  elapsed : Nat := 0

/-- Result of an effectful computation: exception-or-value plus the
threaded world (the world survives exceptions, as files do). -/
abbrev MR (α : Type) := Except ExecErr α × ExecState

/-- Sequencing for `MR`-producing computations. -/
def mbind {α β : Type} (r : MR α) (f : α → ExecState → MR β) : MR β :=
  match r with
  | (.ok a, s) => f a s
  | (.error e, s) => (.error e, s)

/-!
### `RecursionState` operations
-/

/-- `check_depth` (the recipe-name argument is unused by the source too). -/
def RecursionState.checkDepth (rs : RecursionState) : Except ExecErr Unit :=
  if rs.currentDepth ≥ rs.maxDepth then
    .error (.valueError
      ("Recipe recursion depth " ++ toString rs.currentDepth ++ " exceeds limit " ++
        toString rs.maxDepth ++ ". Stack: " ++ String.intercalate " -> " rs.recipeStack))
  else .ok ()

/-- `check_total_steps`. -/
def RecursionState.checkTotalSteps (rs : RecursionState) : Except ExecErr Unit :=
  if rs.totalSteps ≥ rs.maxTotalSteps then
    .error (.valueError
      ("Total steps " ++ toString rs.totalSteps ++ " exceeds limit " ++
        toString rs.maxTotalSteps))
  else .ok ()

/-- `increment_steps`: bump the counter, then check the limit. -/
def RecursionState.incrementSteps (rs : RecursionState) : Except ExecErr RecursionState :=
  let rs' := { rs with totalSteps := rs.totalSteps + 1 }
  match rs'.checkTotalSteps with
  | .ok _ => .ok rs'
  | .error e => .error e

/-- `enter_recipe`: child state with depth + 1, inherited or overridden
limits, extended stack. -/
def RecursionState.enterRecipe (rs : RecursionState) (recipeName : String)
    (overrideCfg : Option RecursionConfig) : RecursionState :=
  { currentDepth := rs.currentDepth + 1
    totalSteps := rs.totalSteps
    maxDepth := (overrideCfg.map (·.maxDepth)).getD rs.maxDepth
    maxTotalSteps := (overrideCfg.map (·.maxTotalSteps)).getD rs.maxTotalSteps
    recipeStack := rs.recipeStack ++ [recipeName] }

/-!
### Session manager (`session.py`), as pure store operations
-/

/-- `load_state`. -/
def loadState (sid : String) (s : ExecState) : MR SessionState :=
  match storeLookup s.store sid with
  | some st => (.ok st, s)
  | none => (.error (.fileNotFound ("Session state not found: " ++ sid)), s)

/-- `save_state`. -/
def saveState (sid : String) (st : SessionState) (s : ExecState) : MR Unit :=
  (.ok (), { s with store := storeSet s.store sid st })

/-- `create_session`: fresh id, initial state from the recipe
(timestamps modelled as `""`). -/
def createSession (recipe : Recipe) (s : ExecState) : MR String :=
  let sid := "session-" ++ toString s.nextSession
  let st : SessionState :=
    { sessionId := sid
      recipeName := recipe.name
      recipeVersion := recipe.version
      started := ""
      currentStepIndex := 0
      context := recipe.context
      completedSteps := [] }
  (.ok sid, { s with nextSession := s.nextSession + 1, store := storeSet s.store sid st })

/-- Pending-approval info returned by `get_pending_approval`. -/
structure PendingInfo where
  stageName : String
  prompt : String
  timeout : Nat
  defaultAction : String
  requestedAt : Option String
deriving DecidableEq

/-- `get_stage_approval_status` (default `not_required`). -/
def getStageApprovalStatus (sid stageName : String) (s : ExecState) : MR String :=
  mbind (loadState sid s) fun st s =>
    (.ok ((sLookup st.stageApprovals stageName).getD "not_required"), s)

/-- `set_stage_approval_status`: set the status and append to history. -/
def setStageApprovalStatus (sid stageName status reason : String) (s : ExecState) :
    MR Unit :=
  mbind (loadState sid s) fun st s =>
    saveState sid
      { st with
        stageApprovals := sSet st.stageApprovals stageName status
        approvalHistory := st.approvalHistory ++ [(stageName, status, reason)] } s

/-- `get_pending_approval`. -/
def getPendingApproval (sid : String) (s : ExecState) : MR (Option PendingInfo) :=
  mbind (loadState sid s) fun st s =>
    match st.pendingApprovalStage with
    | none => (.ok none, s)
    | some stage =>
      (.ok (some
        { stageName := stage
          prompt := st.pendingApprovalPrompt
          timeout := st.pendingApprovalTimeout
          defaultAction := st.pendingApprovalDefault
          requestedAt := st.pendingApprovalRequestedAt }), s)

/-- `set_pending_approval` (request timestamp modelled as `"t"`). -/
def setPendingApproval (sid stageName prompt : String) (timeout : Nat)
    (defaultAction : String) (s : ExecState) : MR Unit :=
  mbind (loadState sid s) fun st s =>
    saveState sid
      { st with
        pendingApprovalStage := some stageName
        pendingApprovalPrompt := prompt
        pendingApprovalTimeout := timeout
        pendingApprovalDefault := defaultAction
        pendingApprovalRequestedAt := some "t"
        stageApprovals := sSet st.stageApprovals stageName "pending" } s

/-- `clear_pending_approval`. -/
def clearPendingApproval (sid : String) (s : ExecState) : MR Unit :=
  mbind (loadState sid s) fun st s =>
    saveState sid
      { st with
        pendingApprovalStage := none
        pendingApprovalPrompt := ""
        pendingApprovalTimeout := 0
        pendingApprovalDefault := "deny"
        pendingApprovalRequestedAt := none } s

/-- `check_approval_timeout`: with no pending approval, no request
timestamp, or `timeout = 0`, do nothing; once `elapsed ≥ timeout`, apply
the default action and clear the pending approval. -/
def checkApprovalTimeout (env : Env) (sid : String) (s : ExecState) :
    MR (Option String) :=
  mbind (getPendingApproval sid s) fun pending s =>
    match pending with
    | none => (.ok none, s)
    | some p =>
      if p.requestedAt.isNone || p.timeout == 0 then (.ok none, s)
      else if env.elapsed ≥ p.timeout then
        if p.defaultAction == "approve" then
          mbind (setStageApprovalStatus sid p.stageName "approved"
              "Timeout - auto-approved" s) fun _ s =>
            mbind (clearPendingApproval sid s) fun _ s => (.ok (some "approved"), s)
        else
          mbind (setStageApprovalStatus sid p.stageName "timeout"
              "Timeout - auto-denied" s) fun _ s =>
            mbind (clearPendingApproval sid s) fun _ s => (.ok (some "timeout"), s)
      else (.ok none, s)

end Recipes

namespace Recipes

/-!
### Step executor (`execute_step`, `execute_step_with_retry`)
-/

/-- `execute_step`: substitute the prompt, add the optional
`MODE: <mode>` prefix, call the spawner.  The invocation is logged in
the trace (with the issuing step's id) whether it succeeds or fails. -/
def executeStep (env : Env) (step : Step) (ctx : Ctx) (s : ExecState) : MR Value :=
  if !truthyOpt step.prompt || !truthyOpt step.agent then
    (.error (.valueError
      ("Step " ++ quoted step.id ++ " is an agent step but missing prompt or agent")), s)
  else
    match substituteVariables (step.prompt.getD "") ctx with
    | .error e => (.error (.valueError e), s)
    | .ok instr0 =>
      let instruction :=
        if truthyOpt step.mode then "MODE: " ++ step.mode.getD "" ++ "\n\n" ++ instr0
        else instr0
      let agent := step.agent.getD ""
      let n := s.spawnCount
      let s' := { s with
        spawnCount := n + 1
        trace := s.trace ++ [⟨step.id, agent, instruction⟩] }
      match env.spawnFn n agent instruction with
      | .ok v => (.ok v, s')
      | .error msg => (.error (.stepFailure msg), s')

/-- The retry loop of `execute_step_with_retry`: `remaining` counts the
attempts still available including the current one.  On a non-final
failure, sleep `min(delay, max_delay)` and double the delay when the
backoff is exponential.  On the final failure apply `on_error`; an
unrecognized `on_error` falls through Python's loop (sleeping once more)
and returns `None`. -/
def retryLoop (env : Env) (step : Step) (ctx : Ctx) (backoff : String) (maxDelay : Nat) :
    Nat → Nat → ExecState → MR Value
  | 0, _, s => (.ok .null, s)
  | remaining + 1, delay, s =>
    match executeStep env step ctx s with
    | (.ok v, s') => (.ok v, s')
    | (.error e, s') =>
      if remaining == 0 then
        if step.onError == "fail" then (.error e, s')
        else if step.onError == "continue" then (.ok .null, s')
        else if step.onError == "skip_remaining" then (.error .skipRemaining, s')
        else (.ok .null, { s' with sleeps := s'.sleeps ++ [min delay maxDelay] })
      else
        retryLoop env step ctx backoff maxDelay remaining
          (if backoff == "exponential" then delay * 2 else delay)
          { s' with sleeps := s'.sleeps ++ [min delay maxDelay] }

/-- `execute_step_with_retry`: read the retry config (defaults
`max_attempts=1`, `backoff=exponential`, `initial_delay=5`,
`max_delay=300`) and run the attempt loop; `max_attempts = 0` skips the
loop and returns `None` via Python's fall-through. -/
def executeStepWithRetry (env : Env) (step : Step) (ctx : Ctx) (s : ExecState) : MR Value :=
  let rc := step.retry.getD {}
  retryLoop env step ctx rc.backoff rc.maxDelay rc.maxAttempts rc.initialDelay s

/-!
### Loop executor (`_execute_loop` and friends)

The recursive call into `execute_recipe` for `type: recipe` steps is
abstracted as a `SubRunner` argument, so the loop functions themselves
are non-recursive in the recipe structure; `executeRecipe` ties the
knot with a fuel argument.
-/

/-- Runs a `type: recipe` step: returns the sub-recipe's final context
as a value together with the updated recursion state. -/
abbrev SubRunner := Step → Ctx → RecursionState → ExecState → MR (Value × RecursionState)

/-- `_resolve_foreach_variable`: `re.match` the (any-dots) reference
pattern at the start of the stripped string (trailing characters are
ignored, as `re.match` does not anchor the end), then walk the dotted
path. -/
def resolveForeachVariable (foreach : String) (ctx : Ctx) : Except String Value :=
  match pyStrip foreach.data with
  | c1 :: c2 :: rest =>
    if c1 == lb && c2 == lb then
      match refScan none [] false 0 rest with
      | some (ref, _) =>
        match walkPath ((splitDots ref).map String.mk) (.dict ctx) with
        | some v => .ok v
        | none => .error ("Undefined variable in foreach: " ++ foreach)
      | none => .error ("Invalid foreach syntax: " ++ foreach)
    else .error ("Invalid foreach syntax: " ++ foreach)
  | _ => .error ("Invalid foreach syntax: " ++ foreach)

/-- Append a step id to `context["_skipped_steps"]`
(`context.get("_skipped_steps", [])` then append then store). -/
def appendSkipped (ctx : Ctx) (stepId : String) : Ctx :=
  let skipped :=
    match ctxLookup ctx "_skipped_steps" with
    | some (.list xs) => xs
    | _ => []
  ctxSet ctx "_skipped_steps" (.list (skipped ++ [.str stepId]))

/-- `_execute_loop_sequential`: iterate in order; set the loop variable,
run the step (recipe steps via `runSub`, agent steps via increment +
retry — the increment's error is caught and wrapped like any other
iteration failure), and delete the loop variable on every path.
`SkipRemaining` propagates; other failures become
`Step '<id>' iteration <idx> failed: <e>`. -/
def executeLoopSequential (env : Env) (runSub : SubRunner) (step : Step)
    (loopVar : String) : List Value → Nat → Ctx → RecursionState → ExecState →
    MR (List Value × Ctx × RecursionState)
  | [], _, ctx, rs, s => (.ok ([], ctx, rs), s)
  | item :: items, idx, ctx, rs, s =>
    let ctx1 := ctxSet ctx loopVar item
    let attempt : MR (Value × RecursionState) :=
      if step.type == "recipe" then runSub step ctx1 rs s
      else
        match rs.incrementSteps with
        | .error e => (.error e, s)
        | .ok rs' =>
          match executeStepWithRetry env step ctx1 s with
          | (.ok v, s') => (.ok (v, rs'), s')
          | (.error e, s') => (.error e, s')
    match attempt with
    | (.ok (v, rs'), s') =>
      match executeLoopSequential env runSub step loopVar items (idx + 1)
          (ctxDel ctx1 loopVar) rs' s' with
      | (.ok (vs, ctx2, rs2), s2) => (.ok (v :: vs, ctx2, rs2), s2)
      | (.error e, s2) => (.error e, s2)
    | (.error .skipRemaining, s') => (.error .skipRemaining, s')
    | (.error e, s') =>
      (.error (.valueError
        ("Step " ++ quoted step.id ++ " iteration " ++ toString idx ++ " failed: " ++
          e.pyMsg)), s')

/-- The per-iteration body of `_execute_loop_parallel`
(`execute_iteration`): isolated context copy, same error wrapping. -/
def parallelIterations (env : Env) (runSub : SubRunner) (step : Step)
    (loopVar : String) (ctx : Ctx) : List Value → Nat → RecursionState → ExecState →
    MR (List Value × RecursionState)
  | [], _, rs, s => (.ok ([], rs), s)
  | item :: items, idx, rs, s =>
    let iterCtx := ctxSet ctx loopVar item
    let attempt : MR (Value × RecursionState) :=
      if step.type == "recipe" then runSub step iterCtx rs s
      else
        match executeStepWithRetry env step iterCtx s with
        | (.ok v, s') => (.ok (v, rs), s')
        | (.error e, s') => (.error e, s')
    match attempt with
    | (.ok (v, rs'), s') =>
      match parallelIterations env runSub step loopVar ctx items (idx + 1) rs' s' with
      | (.ok (vs, rs2), s2) => (.ok (v :: vs, rs2), s2)
      | (.error e, s2) => (.error e, s2)
    | (.error .skipRemaining, s') => (.error .skipRemaining, s')
    | (.error e, s') =>
      (.error (.valueError
        ("Step " ++ quoted step.id ++ " iteration " ++ toString idx ++ " failed: " ++
          e.pyMsg)), s')

/-- `_execute_loop_parallel`: for agent steps, pre-check the total-step
budget for all iterations (strict `>`) and pre-increment; each iteration
runs on a snapshot `{**context, loop_var: item}` so the parent context
is untouched; `asyncio.gather` returns the results in input order, which
the ordered traversal models (a failing iteration cancels the rest:
fail-fast in input order). -/
def executeLoopParallel (env : Env) (runSub : SubRunner) (step : Step)
    (loopVar : String) (items : List Value) (ctx : Ctx) (rs : RecursionState)
    (s : ExecState) : MR (List Value × RecursionState) :=
  if step.type == "agent" then
    if rs.totalSteps + items.length > rs.maxTotalSteps then
      (.error (.valueError
        ("Parallel loop would exceed max_total_steps (" ++ toString rs.totalSteps ++
          " + " ++ toString items.length ++ " > " ++ toString rs.maxTotalSteps ++ ")")), s)
    else
      parallelIterations env runSub step loopVar ctx items 0
        { rs with totalSteps := rs.totalSteps + items.length } s
  else
    parallelIterations env runSub step loopVar ctx items 0 rs s

/-- `_execute_loop`: resolve the foreach value; non-list fails, empty
list marks the step skipped, `len > max_iterations` fails; otherwise run
sequentially or in parallel and store `collect` (all results) or
`output` (last result). -/
def executeLoop (env : Env) (runSub : SubRunner) (step : Step) (ctx : Ctx)
    (rs : RecursionState) (s : ExecState) : MR (Ctx × RecursionState) :=
  match step.foreach with
  | none => (.error (.valueError "assert step.foreach is not None"), s)
  | some fexpr =>
    match resolveForeachVariable fexpr ctx with
    | .error e => (.error (.valueError e), s)
    | .ok items? =>
      match items? with
      | .list items =>
        if items.isEmpty then (.ok (appendSkipped ctx step.id, rs), s)
        else if items.length > step.maxIterations then
          (.error (.valueError
            ("Step " ++ quoted step.id ++ ": foreach exceeds max_iterations (" ++
              toString items.length ++ " > " ++ toString step.maxIterations ++ ")")), s)
        else
          let loopVar :=
            match step.asVar with
            | some v => if v == "" then "item" else v
            | none => "item"
          if step.parallel then
            match executeLoopParallel env runSub step loopVar items ctx rs s with
            | (.ok (results, rs'), s') =>
              if truthyOpt step.collect then
                (.ok (ctxSet ctx (step.collect.getD "") (.list results), rs'), s')
              else if truthyOpt step.output && !results.isEmpty then
                (.ok (ctxSet ctx (step.output.getD "") (results.getLastD .null), rs'), s')
              else (.ok (ctx, rs'), s')
            | (.error e, s') => (.error e, s')
          else
            match executeLoopSequential env runSub step loopVar items 0 ctx rs s with
            | (.ok (results, ctx', rs'), s') =>
              if truthyOpt step.collect then
                (.ok (ctxSet ctx' (step.collect.getD "") (.list results), rs'), s')
              else if truthyOpt step.output && !results.isEmpty then
                (.ok (ctxSet ctx' (step.output.getD "") (results.getLastD .null), rs'), s')
              else (.ok (ctx', rs'), s')
            | (.error e, s') => (.error e, s')
      | v =>
        (.error (.valueError
          ("Step " ++ quoted step.id ++ ": foreach variable must be a list, got " ++
            v.typeName)), s)

end Recipes

namespace Recipes

/-!
### Recipe executor (`execute_recipe` and its drivers)

The mutually recursive knot (`execute_recipe` → step loops →
`_execute_recipe_step` → `execute_recipe`) is broken by passing the
recursive entry point as an argument (`runRecipe` / `SubRunner`);
`executeRecipe` ties it with a fuel argument that bounds only the
sub-recipe nesting depth.

The drivers return their loop outcome together with the current values
of the Python function's local mutable variables (`context`,
`completed_steps`, …), because the source's `except` handlers read
those after an exception.
-/

/-- Re-runs a recipe (the recursive entry point, minus env and fuel). -/
abbrev RecipeRunner :=
  Recipe → Ctx → Option String → Option RecursionState → ExecState → MR (Ctx × Nat)

/-- Build the sub-recipe context from the step's `context:` mapping:
string values are template-substituted, others pass through
(insertion order preserved). -/
def buildSubContext : Ctx → Ctx → Except String Ctx
  | [], _ => .ok []
  | (k, v) :: rest, ctx =>
    match v with
    | .str sv =>
      bindEx (substituteVariables sv ctx) fun r =>
        bindEx (buildSubContext rest ctx) fun tail => .ok ((k, .str r) :: tail)
    | _ =>
      bindEx (buildSubContext rest ctx) fun tail => .ok ((k, v) :: tail)

/-- `_execute_recipe_step`: substitute the sub-recipe path, load the
sub-recipe (path resolution relative to the parent recipe's directory is
abstracted into the `env.recipes` key), build the isolated sub-context,
enter a child recursion state, run the sub-recipe, and propagate the
child's step total back into the parent state.  The result value is the
sub-recipe's final context. -/
def executeRecipeStep (env : Env) (runRecipe : RecipeRunner) (step : Step)
    (ctx : Ctx) (rs : RecursionState) (s : ExecState) : MR (Value × RecursionState) :=
  match step.recipe with
  | none => (.error (.valueError "Recipe step must have recipe path"), s)
  | some rpath =>
    match substituteVariables rpath ctx with
    | .error e => (.error (.valueError e), s)
    | .ok resolved =>
      match env.recipes resolved with
      | none => (.error (.fileNotFound ("Sub-recipe not found: " ++ resolved)), s)
      | some subRecipe =>
        match buildSubContext step.stepContext ctx with
        | .error e => (.error (.valueError e), s)
        | .ok subCtx =>
          let child := rs.enterRecipe subRecipe.name step.recursion
          mbind (runRecipe subRecipe subCtx none (some child) s) fun res s =>
            (.ok (.dict res.1, { rs with totalSteps := res.2 }), s)

/-- Checkpoint record written by the flat driver. -/
def mkFlatState (sid : String) (recipe : Recipe) (idx : Nat) (ctx : Ctx)
    (completed : List String) : SessionState :=
  { sessionId := sid
    recipeName := recipe.name
    recipeVersion := recipe.version
    started :=
      match ctxLookup ctx "session" with
      | some (.dict d) =>
        match ctxLookup d "started" with
        | some (.str t) => t
        | _ => ""
      | _ => ""
    currentStepIndex := idx
    context := ctx
    completedSteps := completed }

/-- `_save_staged_state`'s record (a fresh dict: stale approval fields
are dropped, exactly as the source rebuilds `state` from scratch). -/
def mkStagedState (sid : String) (recipe : Recipe) (ctx : Ctx) (stageIdx : Nat)
    (stepInStage : Nat) (completedStages completedSteps : List String) : SessionState :=
  { sessionId := sid
    recipeName := recipe.name
    recipeVersion := recipe.version
    started :=
      match ctxLookup ctx "session" with
      | some (.dict d) =>
        match ctxLookup d "started" with
        | some (.str t) => t
        | _ => ""
      | _ => ""
    currentStageIndex := stageIdx
    currentStepInStage := stepInStage
    context := ctx
    completedStages := completedStages
    completedSteps := completedSteps
    isStaged := true }

/-- Exit of the flat step loop: either the loop ran to completion (or
was `break`-ed by `SkipRemaining`), or a step raised; `lastState` is the
`state` local the error handler may re-save. -/
inductive FlatExit where
  | finished (ctx : Ctx) (rs : RecursionState) (lastState : Option SessionState)
  | failed (e : ExecErr) (lastState : Option SessionState)

/-- The flat driver's step loop (`for i in range(current_step_index,
len(recipe.steps))`): step metadata, condition check, foreach dispatch,
recipe/agent execution, output storage, checkpoint after each step. -/
def flatLoop (env : Env) (runSub : SubRunner) (recipe : Recipe) (sid : String) :
    List Step → Nat → Ctx → List String → RecursionState → Option SessionState →
    ExecState → FlatExit × ExecState
  | [], _, ctx, _, rs, lastState, s => (.finished ctx rs lastState, s)
  | step :: rest, i, ctx, completed, rs, lastState, s =>
    let ctx1 := ctxSet ctx "step" (.dict [("id", .str step.id), ("index", .int i)])
    let condOutcome : Option (Except String Bool) :=
      if truthyOpt step.condition then
        some (evaluateCondition (step.condition.getD "") ctx1)
      else none
    match condOutcome with
    | some (.error e) =>
      (.failed (.valueError
        ("Step " ++ quoted step.id ++ ": condition error: " ++ e)) lastState, s)
    | some (.ok false) =>
      flatLoop env runSub recipe sid rest (i + 1) (appendSkipped ctx1 step.id)
        completed rs lastState s
    | _ =>
      if truthyOpt step.foreach then
        match executeLoop env runSub step ctx1 rs s with
        | (.ok (ctx2, rs2), s') =>
          let completed2 := completed ++ [step.id]
          let st := mkFlatState sid recipe (i + 1) ctx2 completed2
          match saveState sid st s' with
          | (_, s2) =>
            flatLoop env runSub recipe sid rest (i + 1) ctx2 completed2 rs2 (some st) s2
        | (.error .skipRemaining, s') => (.finished ctx1 rs lastState, s')
        | (.error e, s') => (.failed e lastState, s')
      else if step.type == "recipe" then
        match runSub step ctx1 rs s with
        | (.ok (result, rs2), s') =>
          let ctx2 :=
            if truthyOpt step.output then ctxSet ctx1 (step.output.getD "") result
            else ctx1
          let completed2 := completed ++ [step.id]
          let st := mkFlatState sid recipe (i + 1) ctx2 completed2
          match saveState sid st s' with
          | (_, s2) =>
            flatLoop env runSub recipe sid rest (i + 1) ctx2 completed2 rs2 (some st) s2
        | (.error .skipRemaining, s') => (.finished ctx1 rs lastState, s')
        | (.error e, s') => (.failed e lastState, s')
      else
        match rs.incrementSteps with
        | .error e => (.failed e lastState, s)
        | .ok rs2 =>
          match executeStepWithRetry env step ctx1 s with
          | (.ok result, s') =>
            let ctx2 :=
              if truthyOpt step.output then ctxSet ctx1 (step.output.getD "") result
              else ctx1
            let completed2 := completed ++ [step.id]
            let st := mkFlatState sid recipe (i + 1) ctx2 completed2
            match saveState sid st s' with
            | (_, s2) =>
              flatLoop env runSub recipe sid rest (i + 1) ctx2 completed2 rs2 (some st) s2
          | (.error .skipRemaining, s') => (.finished ctx1 rs2 lastState, s')
          | (.error e, s') => (.failed e lastState, s')

/-- Exit of the staged step loop: carries the current context and
completed-step list (the handler's view of the mutated locals). -/
inductive StagedStepExit where
  | finished (ctx : Ctx) (completedSteps : List String) (rs : RecursionState)
  | failed (e : ExecErr) (ctx : Ctx) (completedSteps : List String)

/-- The staged driver's inner step loop (steps of one stage, from
`start_step`); checkpoints use the stage+step cursor. -/
def stagedStepLoop (env : Env) (runSub : SubRunner) (recipe : Recipe) (sid : String)
    (stage : Stage) (stageIdx : Nat) (completedStages : List String) :
    List Step → Nat → Ctx → List String → RecursionState → ExecState →
    StagedStepExit × ExecState
  | [], _, ctx, completedSteps, rs, s => (.finished ctx completedSteps rs, s)
  | step :: rest, stepIdx, ctx, completedSteps, rs, s =>
    let ctx1 := ctxSet ctx "step"
      (.dict [("id", .str step.id), ("index", .int stepIdx), ("stage", .str stage.name)])
    let condOutcome : Option (Except String Bool) :=
      if truthyOpt step.condition then
        some (evaluateCondition (step.condition.getD "") ctx1)
      else none
    match condOutcome with
    | some (.error e) =>
      (.failed (.valueError
        ("Step " ++ quoted step.id ++ ": condition error: " ++ e)) ctx1 completedSteps, s)
    | some (.ok false) =>
      stagedStepLoop env runSub recipe sid stage stageIdx completedStages rest
        (stepIdx + 1) (appendSkipped ctx1 step.id) completedSteps rs s
    | _ =>
      if truthyOpt step.foreach then
        match executeLoop env runSub step ctx1 rs s with
        | (.ok (ctx2, rs2), s') =>
          let completed2 := completedSteps ++ [step.id]
          match saveState sid
              (mkStagedState sid recipe ctx2 stageIdx (stepIdx + 1) completedStages
                completed2) s' with
          | (_, s2) =>
            stagedStepLoop env runSub recipe sid stage stageIdx completedStages rest
              (stepIdx + 1) ctx2 completed2 rs2 s2
        | (.error .skipRemaining, s') => (.finished ctx1 completedSteps rs, s')
        | (.error e, s') => (.failed e ctx1 completedSteps, s')
      else if step.type == "recipe" then
        match runSub step ctx1 rs s with
        | (.ok (result, rs2), s') =>
          let ctx2 :=
            if truthyOpt step.output then ctxSet ctx1 (step.output.getD "") result
            else ctx1
          let completed2 := completedSteps ++ [step.id]
          match saveState sid
              (mkStagedState sid recipe ctx2 stageIdx (stepIdx + 1) completedStages
                completed2) s' with
          | (_, s2) =>
            stagedStepLoop env runSub recipe sid stage stageIdx completedStages rest
              (stepIdx + 1) ctx2 completed2 rs2 s2
        | (.error .skipRemaining, s') => (.finished ctx1 completedSteps rs, s')
        | (.error e, s') => (.failed e ctx1 completedSteps, s')
      else
        match rs.incrementSteps with
        | .error e => (.failed e ctx1 completedSteps, s)
        | .ok rs2 =>
          match executeStepWithRetry env step ctx1 s with
          | (.ok result, s') =>
            let ctx2 :=
              if truthyOpt step.output then ctxSet ctx1 (step.output.getD "") result
              else ctx1
            let completed2 := completedSteps ++ [step.id]
            match saveState sid
                (mkStagedState sid recipe ctx2 stageIdx (stepIdx + 1) completedStages
                  completed2) s' with
            | (_, s2) =>
              stagedStepLoop env runSub recipe sid stage stageIdx completedStages rest
                (stepIdx + 1) ctx2 completed2 rs2 s2
          | (.error .skipRemaining, s') => (.finished ctx1 completedSteps rs2, s')
          | (.error e, s') => (.failed e ctx1 completedSteps, s')

/-- Exit of the staged stage loop, carrying the handler's view of the
mutated locals (`context`, `completed_stages`, `completed_steps`). -/
inductive StagedExit where
  | finished (ctx : Ctx) (completedStages completedSteps : List String)
      (rs : RecursionState)
  | failed (e : ExecErr) (ctx : Ctx) (completedStages completedSteps : List String)

/-- The staged driver's stage loop: stage metadata, inner step loop
(starting at `current_step_in_stage` only for the first resumed stage),
stage-completion bookkeeping and the approval gate (checkpoint at next
stage, set pending approval, raise `ApprovalGatePaused`). -/
def stagedStageLoop (env : Env) (runSub : SubRunner) (recipe : Recipe) (sid : String) :
    List Stage → Nat → Nat → Ctx → List String → List String → RecursionState →
    ExecState → StagedExit × ExecState
  | [], _, _, ctx, completedStages, completedSteps, rs, s =>
    (.finished ctx completedStages completedSteps rs, s)
  | stage :: rest, stageIdx, startStep, ctx, completedStages, completedSteps, rs, s =>
    let ctx1 := ctxSet ctx "stage"
      (.dict [("name", .str stage.name), ("index", .int stageIdx)])
    match stagedStepLoop env runSub recipe sid stage stageIdx completedStages
        (stage.steps.drop startStep) startStep ctx1 completedSteps rs s with
    | (.failed e ctx2 completed2, s') => (.failed e ctx2 completedStages completed2, s')
    | (.finished ctx2 completed2 rs2, s') =>
      let completedStages2 := completedStages ++ [stage.name]
      match stage.approval with
      | some ap =>
        if ap.required then
          let promptVal :=
            if ap.prompt != "" then ap.prompt
            else "Approve completion of stage " ++ quoted stage.name ++ "?"
          match saveState sid
              (mkStagedState sid recipe ctx2 (stageIdx + 1) 0 completedStages2
                completed2) s' with
          | (_, s2) =>
            match setPendingApproval sid stage.name promptVal ap.timeout
                ap.defaultAction s2 with
            | (_, s3) =>
              (.failed (.approvalPaused sid stage.name promptVal) ctx2
                completedStages2 completed2, s3)
        else
          match saveState sid
              (mkStagedState sid recipe ctx2 (stageIdx + 1) 0 completedStages2
                completed2) s' with
          | (_, s2) =>
            stagedStageLoop env runSub recipe sid rest (stageIdx + 1) 0 ctx2
              completedStages2 completed2 rs2 s2
      | none =>
        match saveState sid
            (mkStagedState sid recipe ctx2 (stageIdx + 1) 0 completedStages2
              completed2) s' with
        | (_, s2) =>
          stagedStageLoop env runSub recipe sid rest (stageIdx + 1) 0 ctx2
            completedStages2 completed2 rs2 s2

/-- Body of `_execute_staged_recipe` after the resume handling: run the
stage loop from the cursor; on pause re-raise as-is; on any other error
write the final checkpoint — with the `current_stage_index` /
`current_step_in_stage` values read at entry, exactly as the source's
handler does — then re-raise. -/
def stagedProceed (env : Env) (runSub : SubRunner) (recipe : Recipe) (sid : String)
    (stageIdx0 stepInStage0 : Nat) (ctx : Ctx)
    (completedStages0 completedSteps0 : List String) (rs : RecursionState)
    (s : ExecState) : MR (Ctx × Nat) :=
  match stagedStageLoop env runSub recipe sid (recipe.stages.drop stageIdx0) stageIdx0
      stepInStage0 ctx completedStages0 completedSteps0 rs s with
  | (.finished ctx' _ _ rs', s') => (.ok (ctx', rs'.totalSteps), s')
  | (.failed e ctx' cStages cSteps, s') =>
    match e with
    | .approvalPaused _ _ _ => (.error e, s')
    | _ =>
      mbind (saveState sid
          (mkStagedState sid recipe ctx' stageIdx0 stepInStage0 cStages cSteps) s')
        fun _ s2 => (.error e, s2)

/-- `_execute_staged_recipe`: on resume, load the cursor and handle a
pending approval first (timeout check, then the stored stage status:
pending pauses again, denied raises, approved clears and proceeds);
then drive the stage loop. -/
def executeStagedRecipe (env : Env) (runSub : SubRunner) (recipe : Recipe)
    (ctx : Ctx) (sid : String) (rs : RecursionState) (isResuming : Bool)
    (s : ExecState) : MR (Ctx × Nat) :=
  if isResuming then
    mbind (loadState sid s) fun st s =>
      mbind (getPendingApproval sid s) fun pending s =>
        match pending with
        | none =>
          stagedProceed env runSub recipe sid st.currentStageIndex st.currentStepInStage
            ctx st.completedStages st.completedSteps rs s
        | some p =>
          mbind (getStageApprovalStatus sid p.stageName s) fun approvalStatus s =>
            mbind (checkApprovalTimeout env sid s) fun timeoutResult s =>
              if timeoutResult == some "timeout" then
                (.error (.valueError
                  ("Approval for stage " ++ quoted p.stageName ++
                    " timed out and was denied")), s)
              else if timeoutResult == some "approved" then
                mbind (clearPendingApproval sid s) fun _ s =>
                  stagedProceed env runSub recipe sid st.currentStageIndex
                    st.currentStepInStage ctx st.completedStages st.completedSteps rs s
              else if approvalStatus == "pending" then
                (.error (.approvalPaused sid p.stageName p.prompt), s)
              else if approvalStatus == "denied" then
                (.error (.valueError
                  ("Execution denied at stage " ++ quoted p.stageName)), s)
              else if approvalStatus == "approved" then
                mbind (clearPendingApproval sid s) fun _ s =>
                  stagedProceed env runSub recipe sid st.currentStageIndex
                    st.currentStepInStage ctx st.completedStages st.completedSteps rs s
              else
                stagedProceed env runSub recipe sid st.currentStageIndex
                  st.currentStepInStage ctx st.completedStages st.completedSteps rs s
  else
    stagedProceed env runSub recipe sid 0 0 ctx [] [] rs s

/-- Inject the reserved `recipe` and `session` context entries. -/
def addMetadata (recipe : Recipe) (sid started : String) (ctx : Ctx) : Ctx :=
  ctxSet
    (ctxSet ctx "recipe"
      (.dict [("name", .str recipe.name), ("version", .str recipe.version),
        ("description", .str recipe.description)]))
    "session"
    (.dict [("id", .str sid), ("started", .str started), ("project", .str "")])

/-- `execute_recipe`: initialize or inherit the recursion state
(checking the depth before entering a sub-recipe), create or resume the
session, inject context metadata, and dispatch to the staged or flat
driver.  Returns the final context together with the final
`total_steps` of this invocation's recursion state (the source
communicates the latter by object mutation).  The fuel bounds only
sub-recipe nesting. -/
def executeRecipe (env : Env) :
    Nat → Recipe → Ctx → Option String → Option RecursionState → ExecState →
    MR (Ctx × Nat)
  | 0, _, _, _, _, s => (.error .fuelExhausted, s)
  | fuel + 1, recipe, contextVars, sessionId?, recursionState?, s =>
    let rsInit : Except ExecErr RecursionState :=
      match recursionState? with
      | none =>
        let config := recipe.recursion.getD {}
        .ok { currentDepth := 0, totalSteps := 0, maxDepth := config.maxDepth,
              maxTotalSteps := config.maxTotalSteps, recipeStack := [recipe.name] }
      | some rs =>
        match rs.checkDepth with
        | .ok _ => .ok rs
        | .error e => .error e
    match rsInit with
    | .error e => (.error e, s)
    | .ok rs =>
      let runSub : SubRunner := executeRecipeStep env (executeRecipe env fuel)
      if recipe.isStaged then
        match sessionId? with
        | some sid =>
          mbind (loadState sid s) fun st s =>
            executeStagedRecipe env runSub recipe
              (addMetadata recipe sid st.started st.context) sid rs true s
        | none =>
          mbind (createSession recipe s) fun sid s =>
            executeStagedRecipe env runSub recipe
              (addMetadata recipe sid "" (ctxMerge recipe.context contextVars)) sid rs
              false s
      else
        match sessionId? with
        | some sid =>
          mbind (loadState sid s) fun st s =>
            match flatLoop env runSub recipe sid (recipe.steps.drop st.currentStepIndex)
                st.currentStepIndex (addMetadata recipe sid st.started st.context)
                st.completedSteps rs none s with
            | (.finished ctx' rs' _, s') => (.ok (ctx', rs'.totalSteps), s')
            | (.failed e lastState, s') =>
              match lastState with
              | some st' => mbind (saveState sid st' s') fun _ s2 => (.error e, s2)
              | none => (.error e, s')
        | none =>
          mbind (createSession recipe s) fun sid s =>
            match flatLoop env runSub recipe sid recipe.steps 0
                (addMetadata recipe sid "" (ctxMerge recipe.context contextVars)) [] rs
                none s with
            | (.finished ctx' rs' _, s') => (.ok (ctx', rs'.totalSteps), s')
            | (.failed e lastState, s') =>
              match lastState with
              | some st' => mbind (saveState sid st' s') fun _ s2 => (.error e, s2)
              | none => (.error e, s')

/-!
### Approval tool operations (`__init__.py`)
-/

/-- `_deny_stage`: verify the session and the matching pending approval,
set the stage status to `denied` (recording history), then clear the
pending approval.  Tool-level failures are returned as messages. -/
def denyStage (sid stageName reason : String) (s : ExecState) :
    Except String Unit × ExecState :=
  match storeLookup s.store sid with
  | none => (.error ("Session not found: " ++ sid), s)
  | some _ =>
    match getPendingApproval sid s with
    | (.error e, s') => (.error e.pyMsg, s')
    | (.ok none, s') => (.error ("No pending approval for session: " ++ sid), s')
    | (.ok (some p), s') =>
      if p.stageName != stageName then
        (.error ("Stage mismatch: pending approval is for " ++ quoted p.stageName ++
          ", not " ++ quoted stageName), s')
      else
        match setStageApprovalStatus sid stageName "denied" reason s' with
        | (_, s2) =>
          match clearPendingApproval sid s2 with
          | (_, s3) => (.ok (), s3)

/-- `_approve_stage`: like deny, but sets `approved` and — deliberately —
does not clear the pending approval (the driver clears it on resume). -/
def approveStage (sid stageName : String) (s : ExecState) :
    Except String Unit × ExecState :=
  match storeLookup s.store sid with
  | none => (.error ("Session not found: " ++ sid), s)
  | some _ =>
    match getPendingApproval sid s with
    | (.error e, s') => (.error e.pyMsg, s')
    | (.ok none, s') => (.error ("No pending approval for session: " ++ sid), s')
    | (.ok (some p), s') =>
      if p.stageName != stageName then
        (.error ("Stage mismatch: pending approval is for " ++ quoted p.stageName ++
          ", not " ++ quoted stageName), s')
      else
        match setStageApprovalStatus sid stageName "approved" "Approved by user" s' with
        | (_, s2) => (.ok (), s2)

end Recipes

namespace Recipes

/-!
### Concrete scenario fixtures

Recipes, environments and runs used by the claim theorems below.  The
spawner environments are deterministic functions of the invocation
index, mirroring the mocked spawners of the repository's tests.
-/

/-- Project the error out of an `Except` result (`none` = no exception). -/
def errOf {α : Type} : Except ExecErr α → Option ExecErr
  | .error e => some e
  | .ok _ => none

/-- Echo spawner: every call succeeds and returns its instruction. -/
def envEcho : Env := { spawnFn := fun _ _ i => .ok (.str i) }

/-- Staged recipe with an approval gate after its first stage. -/
def denyRecipe : Recipe :=
  { name := "rc1", version := "1.0.0",
    stages := [
      { name := "plan",
        steps := [{ id := "p1", agent := some "a", prompt := some "do plan" }],
        approval := some { required := true, prompt := "ok?" } },
      { name := "build",
        steps := [{ id := "b1", agent := some "a", prompt := some "do build" }] } ] }

/-- First run of `denyRecipe`: executes `plan`, pauses at the gate. -/
def denyRun1 : MR (Ctx × Nat) := executeRecipe envEcho 5 denyRecipe [] none none {}

/-- The world after `deny(session-0, plan)` on the paused session. -/
def denyWorld : ExecState := (denyStage "session-0" "plan" "no" denyRun1.2).2

/-- Resuming the denied session. -/
def denyResume : MR (Ctx × Nat) :=
  executeRecipe envEcho 5 denyRecipe [] (some "session-0") none denyWorld

/-- Staged recipe with one stage of two agent steps. -/
def twoStepStagedRecipe : Recipe :=
  { name := "rc2", version := "1.0.0",
    stages := [
      { name := "s",
        steps := [
          { id := "a1", agent := some "a", prompt := some "one" },
          { id := "a2", agent := some "a", prompt := some "two" } ] } ] }

/-- Spawner that succeeds on its first invocation and fails afterwards. -/
def envFailSecond : Env :=
  { spawnFn := fun n _ i => if n == 0 then .ok (.str i) else .error "boom" }

/-- Run of `twoStepStagedRecipe` in which `a1` completes and `a2` raises. -/
def staleCursorRun : MR (Ctx × Nat) :=
  executeRecipe envFailSecond 5 twoStepStagedRecipe [] none none {}

/-- Resuming that session with a healthy spawner. -/
def staleCursorResume : MR (Ctx × Nat) :=
  executeRecipe envEcho 5 twoStepStagedRecipe [] (some "session-0") none staleCursorRun.2

/-- Flat recipe with one agent step and `max_total_steps = 1`: its number
of agent steps equals the limit exactly. -/
def exactBudgetRecipe : Recipe :=
  { name := "rc4", version := "1.0.0",
    recursion := some { maxDepth := 5, maxTotalSteps := 1 },
    steps := [{ id := "only", agent := some "a", prompt := some "go" }] }

/-- Flat recipe whose single parallel foreach spawns exactly
`max_total_steps` agent iterations. -/
def exactBudgetParallelRecipe : Recipe :=
  { name := "rc4p", version := "1.0.0",
    context := [("items", .list [.str "x", .str "y"])],
    recursion := some { maxDepth := 5, maxTotalSteps := 2 },
    steps := [{ id := "loop", agent := some "a", prompt := some "do \x7b\x7bitem\x7d\x7d",
                foreach := some "\x7b\x7bitems\x7d\x7d", parallel := true,
                collect := some "out" }] }

/-- Step with `retry = {max_attempts: 3, backoff: exponential,
initial_delay: 1, max_delay: 4}` (scenario S6). -/
def retryStep : Step :=
  { id := "r", agent := some "a", prompt := some "p",
    retry := some { maxAttempts := 3, backoff := "exponential", initialDelay := 1,
                    maxDelay := 4 } }

/-- Spawner failing on the first two invocations, succeeding on the
third with the given value. -/
def envThirdTry (v : Value) : Env :=
  { spawnFn := fun n _ _ =>
      if n == 0 then .error "e0" else if n == 1 then .error "e1" else .ok v }

/-- Self-recursive recipe `A` (one agent step, then `A` again) with
`recursion.max_depth = 2`. -/
def selfRecipe : Recipe :=
  { name := "A", version := "1.0.0",
    recursion := some { maxDepth := 2, maxTotalSteps := 100 },
    steps := [
      { id := "s1", agent := some "a", prompt := some "work" },
      { id := "s2", type := "recipe", recipe := some "A" } ] }

/-- Environment in which the path `A` loads `selfRecipe`. -/
def envSelf : Env :=
  { spawnFn := fun _ _ i => .ok (.str i)
    recipes := fun p => if p == "A" then some selfRecipe else none }

/-- A `SubRunner` that is never consulted (for loops of agent steps). -/
def noSub : SubRunner := fun _ _ _ s => (.error .fuelExhausted, s)

/-- Foreach step with `collect` and `max_iterations = 3`. -/
def foreachStep : Step :=
  { id := "loop", agent := some "a", prompt := some "go",
    foreach := some "\x7b\x7bitems\x7d\x7d", collect := some "out", maxIterations := 3 }

/-- Sleep schedule the retry loop produces for `n` waits of exponential
backoff: `min(d·2^i, maxDelay)` for `i = 0, …, n-1` (the spec's
`delay ← 2·delay` law). -/
def expSleeps (d maxDelay n : Nat) : List Nat :=
  (List.range n).map (fun i => min (d * 2 ^ i) maxDelay)

/-- Sleep schedule for linear backoff: `n` copies of `min(d, maxDelay)`. -/
def linSleeps (d maxDelay n : Nat) : List Nat :=
  List.replicate n (min d maxDelay)

/-- The spec's description of an ordered parallel `collect`: apply the
per-item function in input order (`[f(x₀), …, f(xₙ₋₁)]`). -/
def specOrderedResults (f : Value → Value) (items : List Value) : List Value :=
  items.map f

end Recipes

namespace Recipes

/-- `pat` occurs somewhere inside `cs` (Python `pat in s`). -/
def occIn (pat cs : List Char) : Prop := ∃ xs ys, cs = xs ++ pat ++ ys

/-- A char list containing no left brace (no `{{` reference can start in it). -/
def noBrace (cs : List Char) : Prop := ∀ c ∈ cs, c ≠ lb

end Recipes

namespace Recipes

/-! ## Theorems -/

theorem bindEx_ok {α β : Type} (a : α) (f : α → Except String β) :
    bindEx (.ok a) f = f a := rfl

theorem bindEx_error {α β : Type} (e : String) (f : α → Except String β) :
    bindEx (.error e) f = .error e := rfl

/-- C1: after a successful `deny(session_id, stage_name)` on a session
paused at an approval gate, resuming does not raise the denied error —
it runs the next stage's steps (the spawner is invoked for `b1`),
because `deny` clears the pending approval that the resume path's
`DENIED` check is guarded by.  The four conjuncts evaluate the model:
the first run pauses at `plan`; the deny succeeds; the resume returns
without any error; the combined spawn log after the resume shows `b1`
executed. -/
theorem c1_deny_then_resume_runs_next_stage :
    denyRun1.1 = .error (.approvalPaused "session-0" "plan" "ok?") ∧
    (denyStage "session-0" "plan" "no" denyRun1.2).1 = .ok () ∧
    errOf denyResume.1 = none ∧
    denyResume.2.trace.map (·.stepId) = ["p1", "b1"] :=
  ⟨rfl, rfl, rfl, rfl⟩

/-- C2: in a staged run where step `a1` completes (writing a checkpoint
with cursor stage 0 / step 1) and step `a2` then raises, the error
handler's final checkpoint rewinds the cursor to the entry values
(stage 0, step 0) while `completed_steps` still lists `a1`; resuming
therefore invokes the spawner again for the completed step `a1`. -/
theorem c2_staged_error_checkpoint_rewinds_cursor :
    errOf staleCursorRun.1 = some (.stepFailure "boom") ∧
    (storeLookup staleCursorRun.2.store "session-0").map
      (fun st => (st.currentStageIndex, st.currentStepInStage, st.completedSteps)) =
      some (0, 0, ["a1"]) ∧
    errOf staleCursorResume.1 = none ∧
    staleCursorResume.2.trace.map (·.stepId) = ["a1", "a2", "a1", "a2"] :=
  ⟨rfl, rfl, rfl, rfl⟩

/-- C3 counterexample: a reference with two dots resolves in the
context, yet `substitute_variables` leaves it verbatim (its pattern
allows at most one dot), instead of substituting the resolved value
`"v"` as the claim asserts. -/
theorem c3_two_dot_reference_left_verbatim :
    substituteVariables "\x7b\x7ba.b.c\x7d\x7d"
        [("a", .dict [("b", .dict [("c", .str "v")])])] = .ok "\x7b\x7ba.b.c\x7d\x7d" ∧
    substituteVariables "\x7b\x7ba.b.c\x7d\x7d"
        [("a", .dict [("b", .dict [("c", .str "v")])])] ≠ .ok "v" := by
  refine ⟨rfl, fun h => ?_⟩
  rw [show substituteVariables "\x7b\x7ba.b.c\x7d\x7d"
      [("a", .dict [("b", .dict [("c", .str "v")])])] =
      .ok "\x7b\x7ba.b.c\x7d\x7d" from rfl] at h
  injection h with h'
  exact absurd h' (by decide)

/-- C4 counterexample: a flat run whose executed agent steps equal
`max_total_steps` exactly (one step, limit 1) does not complete — the
increment before the step raises `Total steps 1 exceeds limit 1`, and
the spawner is never invoked. -/
theorem c4_exact_budget_sequential_run_fails :
    errOf (executeRecipe envEcho 5 exactBudgetRecipe [] none none {}).1 =
      some (.valueError "Total steps 1 exceeds limit 1") ∧
    (executeRecipe envEcho 5 exactBudgetRecipe [] none none {}).2.trace = [] :=
  ⟨rfl, rfl⟩

/-- C4 (amended): `increment_steps` succeeds exactly when the
incremented counter stays strictly below the limit, so the sequential
agent step that reaches `max_total_steps` is fatal before its spawner
call (second and third conjuncts), while the parallel pre-check is a
strict `>`, so a parallel loop of exactly `max_total_steps` iterations
completes with every iteration spawned and collected (remaining
conjuncts). -/
theorem c4_total_steps_boundary :
    (∀ rs : RecursionState,
      (∃ rs', rs.incrementSteps = .ok rs') ↔ rs.totalSteps + 1 < rs.maxTotalSteps) ∧
    errOf (executeRecipe envEcho 5 exactBudgetRecipe [] none none {}).1 =
      some (.valueError "Total steps 1 exceeds limit 1") ∧
    (executeRecipe envEcho 5 exactBudgetRecipe [] none none {}).2.spawnCount = 0 ∧
    errOf (executeRecipe envEcho 5 exactBudgetParallelRecipe [] none none {}).1 = none ∧
    (executeRecipe envEcho 5 exactBudgetParallelRecipe [] none none {}).2.trace.map
      (·.stepId) = ["loop", "loop"] ∧
    (executeRecipe envEcho 5 exactBudgetParallelRecipe [] none none {}).1.toOption.map
      (fun r => ctxLookup r.1 "out") =
      some (some (.list [.str "do x", .str "do y"])) := by
  refine ⟨fun rs => ?_, rfl, rfl, rfl, rfl, rfl⟩
  unfold RecursionState.incrementSteps RecursionState.checkTotalSteps
  dsimp only
  by_cases h : rs.totalSteps + 1 ≥ rs.maxTotalSteps
  · rw [if_pos h]
    constructor
    · rintro ⟨rs', hrs'⟩
      exact Except.noConfusion hrs'
    · intro hlt
      omega
  · rw [if_neg h]
    constructor
    · intro _
      omega
    · exact fun _ => ⟨_, rfl⟩

/-- C8: `check_depth` accepts exactly while `current_depth < max_depth`
(so every sub-recipe entry with `current_depth ≥ max_depth` is
rejected), and the self-recursive recipe `A` with `max_depth = 2`
aborts on its third entry with the depth-exceeded error carrying the
stack `A -> A -> A`, the spawner having run only the two permitted
levels (never the rejected one). -/
theorem c8_depth_limit_and_self_recursion :
    (∀ rs : RecursionState,
      (∃ u, rs.checkDepth = .ok u) ↔ rs.currentDepth < rs.maxDepth) ∧
    errOf (executeRecipe envSelf 10 selfRecipe [] none none {}).1 =
      some (.valueError
        "Recipe recursion depth 2 exceeds limit 2. Stack: A -> A -> A") ∧
    (executeRecipe envSelf 10 selfRecipe [] none none {}).2.trace.map (·.stepId) =
      ["s1", "s1"] := by
  refine ⟨fun rs => ?_, rfl, rfl⟩
  unfold RecursionState.checkDepth
  by_cases h : rs.currentDepth ≥ rs.maxDepth
  · rw [if_pos h]
    constructor
    · rintro ⟨u, hu⟩
      exact Except.noConfusion hu
    · intro hlt
      omega
  · rw [if_neg h]
    constructor
    · intro _
      omega
    · exact fun _ => ⟨(), rfl⟩

end Recipes

namespace Recipes

theorem splitDots_ne_nil (cs : List Char) : splitDots cs ≠ [] := by
  cases cs with
  | nil => simp [splitDots]
  | cons c cs' =>
    unfold splitDots
    split
    · simp
    · split <;> simp

/-- One `re.sub` pass is determined by the replacement handler's
extensional behaviour. -/
theorem substAux_congr (md : Option Nat)
    (f g : List Char → Except String (List Char)) (h : ∀ r, f r = g r) :
    ∀ fuel cs, substAux md f fuel cs = substAux md g fuel cs := by
  intro fuel
  induction fuel with
  | zero => intro cs; rfl
  | succ n ih =>
    intro cs
    unfold substAux
    cases cs with
    | nil => rfl
    | cons c cs' => simp only [ih, h]

/-- The evaluator's replacement handler cannot distinguish a key bound
to `None` from an absent key: both resolve to Python `None` and raise
the same `Undefined variable` error. -/
theorem exprReplace_null_cons (ctx : Ctx) (k : String)
    (hk : ctxLookup ctx k = none) (ref : List Char) :
    exprReplace ((k, .null) :: ctx) ref = exprReplace ctx ref := by
  unfold exprReplace resolveVariable
  cases hp : (splitDots ref).map String.mk with
  | nil =>
    exact absurd (List.map_eq_nil_iff.mp hp) (splitDots_ne_nil ref)
  | cons p ps =>
    by_cases hkp : k == p
    · have hk' : k = p := by exact_mod_cast beq_iff_eq.mp hkp
      subst hk'
      unfold walkPath
      simp only [ctxLookup, beq_self_eq_true, if_pos, hk]
      cases ps with
      | nil => rfl
      | cons q qs => rfl
    · unfold walkPath
      simp only [ctxLookup, hkp, Bool.false_eq_true, if_false]

end Recipes

namespace Recipes

/-- C10: in condition evaluation, a context key stored as `None` is
indistinguishable from an absent key — evaluating any expression
against `{k: None, **ctx}` gives the identical result (value or error)
as against `ctx` without `k`, and a direct reference to a null-valued
variable raises the same `Undefined variable` error an undefined
variable raises. -/
theorem c10_null_variable_indistinguishable_from_missing :
    (∀ (e : String) (ctx : Ctx) (k : String), ctxLookup ctx k = none →
      evaluateCondition e ((k, .null) :: ctx) = evaluateCondition e ctx) ∧
    evaluateCondition ("\x7b\x7bx\x7d\x7d == " ++ sq ++ "a" ++ sq) [("x", .null)] =
      .error "Undefined variable: x" ∧
    evaluateCondition ("\x7b\x7bx\x7d\x7d == " ++ sq ++ "a" ++ sq) [] =
      .error "Undefined variable: x" := by
  refine ⟨fun e ctx k hk => ?_, rfl, rfl⟩
  unfold evaluateCondition exprSubstitute
  rw [substAux_congr none _ _ (exprReplace_null_cons ctx k hk)]

/-- Witness for C10: instantiating the equality at a concrete context
with a null-valued `x` and at the same context without `x`. -/
theorem c10_witness :
    ctxLookup [("y", .int 1)] "x" = none ∧
    evaluateCondition "\x7b\x7bx\x7d\x7d == true" [("x", .null), ("y", .int 1)] =
      evaluateCondition "\x7b\x7bx\x7d\x7d == true" [("y", .int 1)] :=
  ⟨rfl, c10_null_variable_indistinguishable_from_missing.1 _ [("y", .int 1)] "x" rfl⟩

end Recipes



namespace Recipes

theorem refScan_rest_length (md : Option Nat) :
    ∀ (body acc : List Char) (seen : Bool) (dots : Nat) (ref rest : List Char),
      refScan md acc seen dots body = some (ref, rest) → rest.length ≤ body.length := by
  intro body
  induction body with
  | nil => intro acc seen dots ref rest h; exact absurd h (by simp [refScan])
  | cons c cs ih =>
    intro acc seen dots ref rest h
    unfold refScan at h
    by_cases hw : wordChar c = true
    · rw [if_pos hw] at h
      exact le_trans (ih _ _ _ _ _ h) (by simp)
    · rw [if_neg hw] at h
      by_cases hs : (!seen) = true
      · rw [if_pos hs] at h; exact absurd h (by simp)
      · rw [if_neg hs] at h
        by_cases hd : (c == '.') = true
        · rw [if_pos hd] at h
          cases md with
          | some m =>
            dsimp only at h
            by_cases hm : dots < m
            · rw [if_pos hm] at h
              exact le_trans (ih _ _ _ _ _ h) (by simp)
            · rw [if_neg hm] at h; exact absurd h (by simp)
          | none =>
            dsimp only at h
            exact le_trans (ih _ _ _ _ _ h) (by simp)
        · rw [if_neg hd] at h
          by_cases hr : (c == rb) = true
          · rw [if_pos hr] at h
            cases cs with
            | nil => exact absurd h (by simp)
            | cons c2 cs2 =>
              dsimp only at h
              by_cases hr2 : (c2 == rb) = true
              · rw [if_pos hr2] at h
                injection h with h'
                injection h' with h1 h2
                subst h2
                simp only [List.length_cons]
                omega
              · rw [if_neg hr2] at h; exact absurd h (by simp)
          · rw [if_neg hr] at h; exact absurd h (by simp)

theorem substAux_cons_step (md : Option Nat)
    (repl : List Char → Except String (List Char)) (f : Nat) (c : Char)
    (cs : List Char) (hc : ¬((c == lb) = true)) :
    substAux md repl (f + 1) (c :: cs) =
      bindEx (substAux md repl f cs) fun tail => .ok (c :: tail) := by
  conv_lhs => unfold substAux
  rw [if_neg hc]

theorem substAux_fuel_eq (md : Option Nat) (repl : List Char → Except String (List Char)) :
    ∀ (f1 : Nat) (cs : List Char), cs.length < f1 →
      substAux md repl f1 cs = substAux md repl (cs.length + 1) cs := by
  intro f1
  induction f1 using Nat.strong_induction_on with
  | _ f1 ih =>
    intro cs hlt
    match f1, hlt with
    | f + 1, hlt =>
      cases cs with
      | nil => rfl
      | cons c cs' =>
        have hl : cs'.length + 1 < f + 1 := by simpa using hlt
        show substAux md repl (f + 1) (c :: cs') =
          substAux md repl (cs'.length + 1 + 1) (c :: cs')
        unfold substAux
        by_cases hc : (c == lb) = true
        · rw [if_pos hc, if_pos hc]
          cases cs' with
          | nil => rfl
          | cons c2 cs2 =>
            have hl2 : cs2.length + 1 < f := by simpa using hlt
            dsimp only
            by_cases hc2 : (c2 == lb) = true
            · rw [if_pos hc2, if_pos hc2]
              cases hscan : refScan md [] false 0 cs2 with
              | none =>
                dsimp only
                rw [ih f (by omega) (c2 :: cs2) (by simp; omega)]
              | some pr =>
                obtain ⟨ref, rest⟩ := pr
                dsimp only
                have hrl : rest.length ≤ cs2.length :=
                  refScan_rest_length md cs2 [] false 0 ref rest hscan
                have h1 := ih f (by omega) rest (by omega)
                have h2 := ih ((c2 :: cs2).length + 1) (by simp; omega) rest
                  (by simp; omega)
                rw [h1, h2]
            · rw [if_neg hc2, if_neg hc2]
              rw [ih f (by omega) (c2 :: cs2) (by simp; omega)]
        · rw [if_neg hc, if_neg hc]
          rw [ih f (by omega) cs' (by omega)]

theorem substAux_nolb (md : Option Nat) (repl : List Char → Except String (List Char)) :
    ∀ (cs : List Char) (fuel : Nat), noBrace cs → cs.length < fuel →
      substAux md repl fuel cs = .ok cs := by
  intro cs
  induction cs with
  | nil =>
    intro fuel _ hf
    match fuel, hf with
    | f + 1, _ => rfl
  | cons c cs' ih =>
    intro fuel hnb hf
    match fuel, hf with
    | f + 1, hf =>
      have hc : ¬((c == lb) = true) := by
        have := hnb c (by simp)
        simp [this]
      rw [substAux_cons_step md repl f c cs' hc]
      rw [ih f (fun x hx => hnb x (by simp [hx])) (by simp at hf; omega)]
      rfl

theorem substituteVariables_nolb (t : String) (ctx : Ctx) (hnb : noBrace t.data) :
    substituteVariables t ctx = .ok t := by
  unfold substituteVariables
  rw [substAux_nolb (some 1) (substReplace ctx) t.data (t.data.length + 1) hnb (by omega)]

theorem substAux_copy (md : Option Nat) (repl : List Char → Except String (List Char)) :
    ∀ (pre tail : List Char) (fuel : Nat), noBrace pre → (pre ++ tail).length < fuel →
      substAux md repl fuel (pre ++ tail) =
        bindEx (substAux md repl (tail.length + 1) tail) fun r => .ok (pre ++ r) := by
  intro pre
  induction pre with
  | nil =>
    intro tail fuel _ hf
    simp only [List.nil_append] at hf ⊢
    rw [substAux_fuel_eq md repl fuel tail hf]
    cases h : substAux md repl (tail.length + 1) tail with
    | ok r => rfl
    | error e => rfl
  | cons c pre' ih =>
    intro tail fuel hnb hf
    match fuel, hf with
    | f + 1, hf =>
      have hc : ¬((c == lb) = true) := by
        have := hnb c (by simp)
        simp [this]
      show substAux md repl (f + 1) (c :: (pre' ++ tail)) = _
      rw [substAux_cons_step md repl f c (pre' ++ tail) hc]
      rw [ih tail f (fun x hx => hnb x (by simp [hx])) (by simp at hf ⊢; omega)]
      cases h : substAux md repl (tail.length + 1) tail with
      | ok r => rfl
      | error e => rfl

end Recipes

namespace Recipes

theorem expSleeps_succ (d maxDelay n : Nat) :
    expSleeps d maxDelay (n + 1) = min d maxDelay :: expSleeps (d * 2) maxDelay n := by
  unfold expSleeps
  rw [List.range_succ_eq_map]
  simp only [List.map_cons, pow_zero, mul_one, List.map_map]
  congr 1
  apply List.map_congr_left
  intro i _
  simp only [Function.comp_apply]
  rw [pow_succ]
  ring

/-- One agent-step execution under the standard hypotheses (agent and
prompt set, no mode, brace-free prompt): it logs the spawn and returns
whatever the spawner returns. -/
theorem executeStep_eq (env : Env) (step : Step) (ctx : Ctx) (s : ExecState)
    (a p : String) (hag : step.agent = some a) (ha : a ≠ "")
    (hpr : step.prompt = some p) (hp : p ≠ "") (hmode : step.mode = none)
    (hnb : noBrace p.data) :
    executeStep env step ctx s =
      match env.spawnFn s.spawnCount a p with
      | .ok v => (.ok v,
          { s with
              spawnCount := s.spawnCount + 1
              trace := s.trace ++ [⟨step.id, a, p⟩] })
      | .error m => (.error (.stepFailure m),
          { s with
              spawnCount := s.spawnCount + 1
              trace := s.trace ++ [⟨step.id, a, p⟩] }) := by
  unfold executeStep
  rw [hag, hpr, hmode]
  have hp' : ((p != "") = true) := by simpa using hp
  have ha' : ((a != "") = true) := by simpa using ha
  simp only [truthyOpt, hp', ha', Bool.not_true, Bool.or_self, Bool.false_eq_true,
    if_false, Option.getD_some]
  rw [substituteVariables_nolb p ctx hnb]

theorem retryLoop_allfail_exp (env : Env) (step : Step) (ctx : Ctx) (a p : String)
    (em : Nat → String) (maxD : Nat)
    (hag : step.agent = some a) (ha : a ≠ "") (hpr : step.prompt = some p) (hp : p ≠ "")
    (hmode : step.mode = none) (hnb : noBrace p.data)
    (hfail : ∀ m, env.spawnFn m a p = .error (em m))
    (honor : step.onError = "fail" ∨ step.onError = "continue" ∨
      step.onError = "skip_remaining") :
    ∀ (n delay : Nat) (s : ExecState),
      retryLoop env step ctx "exponential" maxD (n + 1) delay s =
        ((if step.onError == "fail" then .error (.stepFailure (em (s.spawnCount + n)))
          else if step.onError == "continue" then .ok .null
          else .error .skipRemaining),
         { s with
             spawnCount := s.spawnCount + (n + 1)
             trace := s.trace ++ List.replicate (n + 1) ⟨step.id, a, p⟩
             sleeps := s.sleeps ++ expSleeps delay maxD n }) := by
  intro n
  induction n with
  | zero =>
    intro delay s
    unfold retryLoop
    rw [executeStep_eq env step ctx s a p hag ha hpr hp hmode hnb, hfail s.spawnCount]
    rcases honor with h | h | h <;>
      simp [h, expSleeps]
  | succ n ih =>
    intro delay s
    unfold retryLoop
    rw [executeStep_eq env step ctx s a p hag ha hpr hp hmode hnb, hfail s.spawnCount]
    have h0 : ((n + 1 == 0) = false) := by simp
    rw [h0]
    dsimp only
    rw [if_neg (by simp : ¬(false = true))]
    have hb : (("exponential" == "exponential") = true) := by decide
    rw [if_pos hb]
    rw [ih]
    rw [expSleeps_succ]
    rcases honor with h | h | h <;>
      simp [h, List.replicate_succ, List.append_assoc] <;>
      first
        | omega
        | (constructor <;> first | omega | (congr 1; omega) | rfl)
        | (congr 1; omega)
        | rfl

end Recipes

namespace Recipes

theorem linSleeps_succ (d maxDelay n : Nat) :
    linSleeps d maxDelay (n + 1) = min d maxDelay :: linSleeps d maxDelay n := by
  simp [linSleeps, List.replicate_succ]

theorem retryLoop_allfail_lin (env : Env) (step : Step) (ctx : Ctx) (a p : String)
    (em : Nat → String) (maxD : Nat)
    (hag : step.agent = some a) (ha : a ≠ "") (hpr : step.prompt = some p) (hp : p ≠ "")
    (hmode : step.mode = none) (hnb : noBrace p.data)
    (hfail : ∀ m, env.spawnFn m a p = .error (em m))
    (honor : step.onError = "fail" ∨ step.onError = "continue" ∨
      step.onError = "skip_remaining") :
    ∀ (n delay : Nat) (s : ExecState),
      retryLoop env step ctx "linear" maxD (n + 1) delay s =
        ((if step.onError == "fail" then .error (.stepFailure (em (s.spawnCount + n)))
          else if step.onError == "continue" then .ok .null
          else .error .skipRemaining),
         { s with
             spawnCount := s.spawnCount + (n + 1)
             trace := s.trace ++ List.replicate (n + 1) ⟨step.id, a, p⟩
             sleeps := s.sleeps ++ linSleeps delay maxD n }) := by
  intro n
  induction n with
  | zero =>
    intro delay s
    unfold retryLoop
    rw [executeStep_eq env step ctx s a p hag ha hpr hp hmode hnb, hfail s.spawnCount]
    rcases honor with h | h | h <;>
      simp [h, linSleeps]
  | succ n ih =>
    intro delay s
    unfold retryLoop
    rw [executeStep_eq env step ctx s a p hag ha hpr hp hmode hnb, hfail s.spawnCount]
    have h0 : ((n + 1 == 0) = false) := by simp
    rw [h0]
    dsimp only
    rw [if_neg (by simp : ¬(false = true))]
    have hb : (("linear" == "exponential") = false) := by decide
    rw [hb]
    rw [if_neg (by simp : ¬(false = true))]
    rw [ih]
    rw [linSleeps_succ]
    rcases honor with h | h | h <;>
      simp [h, List.replicate_succ, List.append_assoc] <;>
      first
        | omega
        | (constructor <;> first | omega | (congr 1; omega) | rfl)
        | (congr 1; omega)
        | rfl

/-- C7: `execute_step_with_retry` retries up to `max_attempts` times.
First conjunct (scenario S6): with `{max_attempts: 3, backoff:
exponential, initial_delay: 1, max_delay: 4}` and a spawner failing
twice then succeeding, the observed sleeps are exactly `[1, 2]` and the
result is the third call's return value.  Second conjunct: when every
attempt fails under exponential backoff, the loop sleeps
`min(d·2^i, max_delay)` between attempts (`expSleeps`), and after the
final attempt `on_error=fail` propagates the last error,
`continue` returns null, and `skip_remaining` raises the distinguished
skip signal.  Third conjunct: linear backoff keeps the delay unchanged
(`linSleeps`). -/
theorem c7_retry_backoff_and_on_error :
    (∀ v : Value, executeStepWithRetry (envThirdTry v) retryStep [] {} =
      (.ok v,
       { spawnCount := 3
         trace := [⟨"r", "a", "p"⟩, ⟨"r", "a", "p"⟩, ⟨"r", "a", "p"⟩]
         sleeps := [1, 2] })) ∧
    (∀ (env : Env) (step : Step) (ctx : Ctx) (s : ExecState) (a p : String)
      (em : Nat → String) (rc : RetryConfig) (n : Nat),
      step.agent = some a → a ≠ "" → step.prompt = some p → p ≠ "" →
      step.mode = none → noBrace p.data →
      (∀ m, env.spawnFn m a p = .error (em m)) →
      (step.onError = "fail" ∨ step.onError = "continue" ∨
        step.onError = "skip_remaining") →
      step.retry = some rc → rc.maxAttempts = n + 1 → rc.backoff = "exponential" →
      executeStepWithRetry env step ctx s =
        ((if step.onError == "fail" then .error (.stepFailure (em (s.spawnCount + n)))
          else if step.onError == "continue" then .ok .null
          else .error .skipRemaining),
         { s with
             spawnCount := s.spawnCount + (n + 1)
             trace := s.trace ++ List.replicate (n + 1) ⟨step.id, a, p⟩
             sleeps := s.sleeps ++ expSleeps rc.initialDelay rc.maxDelay n })) ∧
    (∀ (env : Env) (step : Step) (ctx : Ctx) (s : ExecState) (a p : String)
      (em : Nat → String) (rc : RetryConfig) (n : Nat),
      step.agent = some a → a ≠ "" → step.prompt = some p → p ≠ "" →
      step.mode = none → noBrace p.data →
      (∀ m, env.spawnFn m a p = .error (em m)) →
      (step.onError = "fail" ∨ step.onError = "continue" ∨
        step.onError = "skip_remaining") →
      step.retry = some rc → rc.maxAttempts = n + 1 → rc.backoff = "linear" →
      executeStepWithRetry env step ctx s =
        ((if step.onError == "fail" then .error (.stepFailure (em (s.spawnCount + n)))
          else if step.onError == "continue" then .ok .null
          else .error .skipRemaining),
         { s with
             spawnCount := s.spawnCount + (n + 1)
             trace := s.trace ++ List.replicate (n + 1) ⟨step.id, a, p⟩
             sleeps := s.sleeps ++ linSleeps rc.initialDelay rc.maxDelay n })) := by
  refine ⟨fun v => rfl, ?_, ?_⟩
  · intro env step ctx s a p em rc n hag ha hpr hp hmode hnb hfail honor hretry hmax hback
    unfold executeStepWithRetry
    rw [hretry, Option.getD_some]
    dsimp only
    rw [hmax, hback]
    exact retryLoop_allfail_exp env step ctx a p em rc.maxDelay hag ha hpr hp hmode hnb
      hfail honor n rc.initialDelay s
  · intro env step ctx s a p em rc n hag ha hpr hp hmode hnb hfail honor hretry hmax hback
    unfold executeStepWithRetry
    rw [hretry, Option.getD_some]
    dsimp only
    rw [hmax, hback]
    exact retryLoop_allfail_lin env step ctx a p em rc.maxDelay hag ha hpr hp hmode hnb
      hfail honor n rc.initialDelay s

/-- Witness for C7: the exponential all-fail law instantiated at a
concrete always-failing spawner with `on_error = continue`,
`max_attempts = 3`, `initial_delay = 1`, `max_delay = 4`: the result is
null and the sleeps are `[1, 2]`. -/
theorem c7_witness :
    executeStepWithRetry
        { spawnFn := fun n _ _ => .error ("fail" ++ toString n) }
        { id := "w", agent := some "a", prompt := some "p", onError := "continue",
          retry := some { maxAttempts := 3, backoff := "exponential",
                          initialDelay := 1, maxDelay := 4 } }
        [] {} =
      (.ok .null,
       { spawnCount := 3
         trace := List.replicate 3 ⟨"w", "a", "p"⟩
         sleeps := [1, 2] }) := by
  have h := c7_retry_backoff_and_on_error.2.1
    { spawnFn := fun n _ _ => .error ("fail" ++ toString n) }
    { id := "w", agent := some "a", prompt := some "p", onError := "continue",
      retry := some { maxAttempts := 3, backoff := "exponential",
                      initialDelay := 1, maxDelay := 4 } }
    [] {} "a" "p" (fun n => "fail" ++ toString n)
    { maxAttempts := 3, backoff := "exponential", initialDelay := 1, maxDelay := 4 } 2
    rfl (by decide) rfl (by decide) rfl (by unfold noBrace; decide) (fun m => rfl)
    (.inr (.inl rfl)) rfl rfl rfl
  rw [h]
  rfl

end Recipes

namespace Recipes

theorem ctxSet_append (ctx : Ctx) (k : String) (v : Value)
    (hk : ctxLookup ctx k = none) : ctxSet ctx k v = ctx ++ [(k, v)] := by
  induction ctx with
  | nil => rfl
  | cons kv rest ih =>
    obtain ⟨k', v'⟩ := kv
    unfold ctxSet
    unfold ctxLookup at hk
    by_cases hkk : (k' == k) = true
    · rw [if_pos hkk] at hk
      exact absurd hk (by simp)
    · rw [if_neg hkk] at hk
      rw [if_neg hkk, ih hk]
      rfl

theorem ctxDel_append (ctx : Ctx) (k : String) (v : Value)
    (hk : ctxLookup ctx k = none) : ctxDel (ctx ++ [(k, v)]) k = ctx := by
  induction ctx with
  | nil => simp [ctxDel]
  | cons kv rest ih =>
    obtain ⟨k', v'⟩ := kv
    unfold ctxLookup at hk
    by_cases hkk : (k' == k) = true
    · rw [if_pos hkk] at hk
      exact absurd hk (by simp)
    · rw [if_neg hkk] at hk
      show ctxDel ((k', v') :: (rest ++ [(k, v)])) k = (k', v') :: rest
      unfold ctxDel
      rw [if_neg hkk, ih hk]

theorem incrementSteps_ok (rs : RecursionState)
    (h : rs.totalSteps + 1 < rs.maxTotalSteps) :
    rs.incrementSteps = .ok { rs with totalSteps := rs.totalSteps + 1 } := by
  unfold RecursionState.incrementSteps RecursionState.checkTotalSteps
  dsimp only
  rw [if_neg (by omega : ¬(rs.totalSteps + 1 ≥ rs.maxTotalSteps))]

/-- `execute_step` with an explicit substitution result (the
instruction may depend on the context). -/
theorem executeStep_subst (env : Env) (step : Step) (ctx : Ctx) (s : ExecState)
    (a p ins : String) (hag : step.agent = some a) (ha : a ≠ "")
    (hpr : step.prompt = some p) (hp : p ≠ "") (hmode : step.mode = none)
    (hsub : substituteVariables p ctx = .ok ins) :
    executeStep env step ctx s =
      match env.spawnFn s.spawnCount a ins with
      | .ok v => (.ok v,
          { s with
              spawnCount := s.spawnCount + 1
              trace := s.trace ++ [⟨step.id, a, ins⟩] })
      | .error m => (.error (.stepFailure m),
          { s with
              spawnCount := s.spawnCount + 1
              trace := s.trace ++ [⟨step.id, a, ins⟩] }) := by
  unfold executeStep
  rw [hag, hpr, hmode]
  have hp' : ((p != "") = true) := by simpa using hp
  have ha' : ((a != "") = true) := by simpa using ha
  simp only [truthyOpt, hp', ha', Bool.not_true, Bool.or_self, Bool.false_eq_true,
    if_false, Option.getD_some]
  rw [hsub]

/-- With no retry config, `execute_step_with_retry` is a single attempt
whose success is returned as-is. -/
theorem executeStepWithRetry_once (env : Env) (step : Step) (ctx : Ctx)
    (s s' : ExecState) (v : Value) (hretry : step.retry = none)
    (hstep : executeStep env step ctx s = (.ok v, s')) :
    executeStepWithRetry env step ctx s = (.ok v, s') := by
  unfold executeStepWithRetry
  rw [hretry]
  show retryLoop env step ctx _ _ 1 _ s = _
  unfold retryLoop
  rw [hstep]

theorem executeLoopSequential_ok (env : Env) (runSub : SubRunner) (step : Step)
    (loopVar : String) (a p : String) (ins : Value → String) (g : String → Value)
    (htype : step.type = "agent") (hag : step.agent = some a) (ha : a ≠ "")
    (hpr : step.prompt = some p) (hp : p ≠ "") (hmode : step.mode = none)
    (hretry : step.retry = none)
    (hspawn : ∀ n i, env.spawnFn n a i = .ok (g i)) :
    ∀ (items : List Value) (idx : Nat) (ctx : Ctx) (rs : RecursionState)
      (s : ExecState),
      ctxLookup ctx loopVar = none →
      (∀ it ∈ items, substituteVariables p (ctxSet ctx loopVar it) = .ok (ins it)) →
      rs.totalSteps + items.length < rs.maxTotalSteps →
      executeLoopSequential env runSub step loopVar items idx ctx rs s =
        (.ok (items.map (fun it => g (ins it)), ctx,
              { rs with totalSteps := rs.totalSteps + items.length }),
         { s with
             spawnCount := s.spawnCount + items.length
             trace := s.trace ++ items.map (fun it => ⟨step.id, a, ins it⟩) }) := by
  intro items
  induction items with
  | nil =>
    intro idx ctx rs s _ _ _
    simp [executeLoopSequential]
  | cons item rest ih =>
    intro idx ctx rs s hlv hsub hbudget
    unfold executeLoopSequential
    have htype' : ((step.type == "recipe") = false) := by simp [htype]
    rw [htype']
    dsimp only
    rw [incrementSteps_ok rs (by simp at hbudget; omega)]
    dsimp only
    rw [executeStepWithRetry_once env step (ctxSet ctx loopVar item) s _
      (g (ins item)) hretry
      (by
        rw [executeStep_subst env step (ctxSet ctx loopVar item) s a p (ins item)
          hag ha hpr hp hmode (hsub item (by simp))]
        rw [hspawn])]
    rw [ctxSet_append ctx loopVar item hlv, ctxDel_append ctx loopVar item hlv]
    rw [if_neg (by simp : ¬(false = true))]
    dsimp only
    rw [ih (idx + 1) ctx _ _ hlv (fun it hit => hsub it (by simp [hit]))
      (by simp at hbudget ⊢; omega)]
    have e1 : rs.totalSteps + 1 + rest.length = rs.totalSteps + (rest.length + 1) := by
      omega
    have e2 : s.spawnCount + 1 + rest.length = s.spawnCount + (rest.length + 1) := by
      omega
    simp only [List.map_cons, List.length_cons, List.append_assoc,
      List.singleton_append, e1, e2]

end Recipes

namespace Recipes

theorem parallelIterations_ok (env : Env) (runSub : SubRunner) (step : Step)
    (loopVar : String) (ctx : Ctx) (a p : String) (ins : Value → String)
    (g : String → Value)
    (htype : step.type = "agent") (hag : step.agent = some a) (ha : a ≠ "")
    (hpr : step.prompt = some p) (hp : p ≠ "") (hmode : step.mode = none)
    (hretry : step.retry = none)
    (hspawn : ∀ n i, env.spawnFn n a i = .ok (g i)) :
    ∀ (items : List Value) (idx : Nat) (rs : RecursionState) (s : ExecState),
      (∀ it ∈ items, substituteVariables p (ctxSet ctx loopVar it) = .ok (ins it)) →
      parallelIterations env runSub step loopVar ctx items idx rs s =
        (.ok (items.map (fun it => g (ins it)), rs),
         { s with
             spawnCount := s.spawnCount + items.length
             trace := s.trace ++ items.map (fun it => ⟨step.id, a, ins it⟩) }) := by
  intro items
  induction items with
  | nil =>
    intro idx rs s _
    simp [parallelIterations]
  | cons item rest ih =>
    intro idx rs s hsub
    unfold parallelIterations
    have htype' : ((step.type == "recipe") = false) := by simp [htype]
    rw [htype']
    dsimp only
    rw [if_neg (by simp : ¬(false = true))]
    rw [executeStepWithRetry_once env step (ctxSet ctx loopVar item) s _
      (g (ins item)) hretry
      (by
        rw [executeStep_subst env step (ctxSet ctx loopVar item) s a p (ins item)
          hag ha hpr hp hmode (hsub item (by simp))]
        rw [hspawn])]
    dsimp only
    rw [ih (idx + 1) rs _ (fun it hit => hsub it (by simp [hit]))]
    have e2 : s.spawnCount + 1 + rest.length = s.spawnCount + (rest.length + 1) := by
      omega
    simp only [List.map_cons, List.length_cons, List.append_assoc,
      List.singleton_append, e2]

theorem executeLoopParallel_ok (env : Env) (runSub : SubRunner) (step : Step)
    (loopVar : String) (ctx : Ctx) (a p : String) (ins : Value → String)
    (g : String → Value) (items : List Value) (rs : RecursionState) (s : ExecState)
    (htype : step.type = "agent") (hag : step.agent = some a) (ha : a ≠ "")
    (hpr : step.prompt = some p) (hp : p ≠ "") (hmode : step.mode = none)
    (hretry : step.retry = none)
    (hspawn : ∀ n i, env.spawnFn n a i = .ok (g i))
    (hsub : ∀ it ∈ items, substituteVariables p (ctxSet ctx loopVar it) = .ok (ins it))
    (hbudget : rs.totalSteps + items.length ≤ rs.maxTotalSteps) :
    executeLoopParallel env runSub step loopVar items ctx rs s =
      (.ok (items.map (fun it => g (ins it)),
            { rs with totalSteps := rs.totalSteps + items.length }),
       { s with
           spawnCount := s.spawnCount + items.length
           trace := s.trace ++ items.map (fun it => ⟨step.id, a, ins it⟩) }) := by
  unfold executeLoopParallel
  have htype' : ((step.type == "agent") = true) := by simp [htype]
  rw [htype']
  rw [if_pos (rfl : true = true)]
  rw [if_neg (by omega : ¬(rs.totalSteps + items.length > rs.maxTotalSteps))]
  rw [parallelIterations_ok env runSub step loopVar ctx a p ins g htype hag ha hpr hp
    hmode hretry hspawn items 0 _ s hsub]

end Recipes

namespace Recipes

/-- C6: `_execute_loop` semantics at the boundaries.  (1) A foreach
value that is not a list fails with the `must be a list` error naming
the Python type.  (2) An empty list marks the step skipped — appending
the id to `_skipped_steps` — and returns without error, leaving the
world (hence the spawner log) untouched.  (3) A list longer than
`max_iterations` fails with the strict `len > max_iterations` error.
(4) A list of length exactly `max_iterations` is allowed: the
sequential loop runs every iteration (one spawn per item) and stores the
collected results. -/
theorem c6_foreach_boundaries :
    (∀ (env : Env) (runSub : SubRunner) (step : Step) (ctx : Ctx)
      (rs : RecursionState) (s : ExecState) (fexpr : String) (v : Value),
      step.foreach = some fexpr → resolveForeachVariable fexpr ctx = .ok v →
      (∀ xs, v ≠ .list xs) →
      executeLoop env runSub step ctx rs s =
        (.error (.valueError ("Step " ++ quoted step.id ++
          ": foreach variable must be a list, got " ++ v.typeName)), s)) ∧
    (∀ (env : Env) (runSub : SubRunner) (step : Step) (ctx : Ctx)
      (rs : RecursionState) (s : ExecState) (fexpr : String),
      step.foreach = some fexpr → resolveForeachVariable fexpr ctx = .ok (.list []) →
      executeLoop env runSub step ctx rs s =
        (.ok (appendSkipped ctx step.id, rs), s)) ∧
    (∀ (env : Env) (runSub : SubRunner) (step : Step) (ctx : Ctx)
      (rs : RecursionState) (s : ExecState) (fexpr : String) (items : List Value),
      step.foreach = some fexpr →
      resolveForeachVariable fexpr ctx = .ok (.list items) →
      items.length > step.maxIterations →
      executeLoop env runSub step ctx rs s =
        (.error (.valueError ("Step " ++ quoted step.id ++
          ": foreach exceeds max_iterations (" ++ toString items.length ++ " > " ++
          toString step.maxIterations ++ ")")), s)) ∧
    (∀ (env : Env) (runSub : SubRunner) (step : Step) (ctx : Ctx)
      (rs : RecursionState) (s : ExecState) (fexpr : String) (items : List Value)
      (a p cname : String) (ins : Value → String) (g : String → Value),
      step.foreach = some fexpr →
      resolveForeachVariable fexpr ctx = .ok (.list items) →
      items ≠ [] → items.length = step.maxIterations →
      step.parallel = false → step.asVar = none →
      step.collect = some cname → cname ≠ "" →
      step.type = "agent" → step.agent = some a → a ≠ "" →
      step.prompt = some p → p ≠ "" → step.mode = none → step.retry = none →
      (∀ n i, env.spawnFn n a i = .ok (g i)) →
      ctxLookup ctx "item" = none →
      (∀ it ∈ items, substituteVariables p (ctxSet ctx "item" it) = .ok (ins it)) →
      rs.totalSteps + items.length < rs.maxTotalSteps →
      executeLoop env runSub step ctx rs s =
        (.ok (ctxSet ctx cname (.list (items.map (fun it => g (ins it)))),
              { rs with totalSteps := rs.totalSteps + items.length }),
         { s with
             spawnCount := s.spawnCount + items.length
             trace := s.trace ++ items.map (fun it => ⟨step.id, a, ins it⟩) })) := by
  refine ⟨?_, ?_, ?_, ?_⟩
  · intro env runSub step ctx rs s fexpr v hf hres hnl
    unfold executeLoop
    rw [hf]
    dsimp only
    rw [hres]
    cases v with
    | list xs => exact absurd rfl (hnl xs)
    | str sv => rfl
    | int n => rfl
    | bool b => rfl
    | dict d => rfl
    | null => rfl
  · intro env runSub step ctx rs s fexpr hf hres
    unfold executeLoop
    rw [hf]
    dsimp only
    rw [hres]
    rfl
  · intro env runSub step ctx rs s fexpr items hf hres hlen
    unfold executeLoop
    rw [hf]
    dsimp only
    rw [hres]
    dsimp only
    have hne : (items.isEmpty = false) := by
      cases items with
      | nil => simp at hlen
      | cons x xs => rfl
    rw [hne]
    rw [if_neg (by simp : ¬(false = true))]
    rw [if_pos hlen]
  · intro env runSub step ctx rs s fexpr items a p cname ins g hf hres hne hlen hpar
      hasv hcollect hcn htype hag ha hpr hp hmode hretry hspawn hlv hsub hbudget
    unfold executeLoop
    rw [hf]
    dsimp only
    rw [hres]
    dsimp only
    have hne' : (items.isEmpty = false) := by
      cases items with
      | nil => exact absurd rfl hne
      | cons x xs => rfl
    rw [hne']
    rw [if_neg (by simp : ¬(false = true))]
    rw [if_neg (by omega : ¬(items.length > step.maxIterations))]
    rw [hasv]
    dsimp only
    rw [hpar]
    rw [if_neg (by simp : ¬(false = true))]
    rw [executeLoopSequential_ok env runSub step "item" a p ins g htype hag ha hpr hp
      hmode hretry hspawn items 0 ctx rs s hlv hsub hbudget]
    have hcol : (truthyOpt step.collect = true) := by
      rw [hcollect]
      simpa [truthyOpt] using hcn
    rw [hcol]
    dsimp only
    rw [hcollect]
    rfl

/-- Witness for C6's fourth conjunct: a sequential foreach over exactly
`max_iterations = 3` items with an echo spawner completes, collecting
the three per-item results in order and logging three spawns. -/
theorem c6_witness :
    executeLoop envEcho noSub foreachStep [("items", .list [.int 1, .int 2, .int 3])]
        { maxTotalSteps := 100 } {} =
      (.ok (ctxSet [("items", .list [.int 1, .int 2, .int 3])] "out"
              (.list [.str "go", .str "go", .str "go"]),
            { maxTotalSteps := 100, totalSteps := 3 }),
       { spawnCount := 3
         trace := List.replicate 3 ⟨"loop", "a", "go"⟩ }) := by
  have h := c6_foreach_boundaries.2.2.2 envEcho noSub foreachStep
    [("items", .list [.int 1, .int 2, .int 3])] { maxTotalSteps := 100 } {} 
    "\x7b\x7bitems\x7d\x7d" [.int 1, .int 2, .int 3] "a" "go" "out"
    (fun _ => "go") (fun i => .str i)
    rfl rfl (by simp) rfl rfl rfl rfl (by decide) rfl rfl (by decide) rfl (by decide)
    rfl rfl (fun n i => rfl) rfl (fun it _ => rfl) (by simp)
  rw [h]
  rfl

end Recipes

namespace Recipes

/-- C9: ordered parallel results.  Under a pure spawner (`g` a function
of the instruction only) and per-item instructions `ins`, the parallel
loop returns exactly `[f(x₀), …, f(xₙ₋₁)]` in input order — the spec's
`specOrderedResults` — the sequential loop over the same inputs returns
the identical list (and the identical final step total), and a
`parallel` foreach step with `collect` stores that ordered list in
`context[collect]`.  Completion order cannot influence the model:
`asyncio.gather`'s input-order result contract is what the ordered
traversal embeds. -/
theorem c9_parallel_collect_in_input_order :
    (∀ (env : Env) (runSub : SubRunner) (step : Step) (loopVar : String)
      (ctx : Ctx) (rs : RecursionState) (s : ExecState) (items : List Value)
      (a p : String) (ins : Value → String) (g : String → Value),
      step.type = "agent" → step.agent = some a → a ≠ "" →
      step.prompt = some p → p ≠ "" → step.mode = none → step.retry = none →
      (∀ n i, env.spawnFn n a i = .ok (g i)) →
      (∀ it ∈ items, substituteVariables p (ctxSet ctx loopVar it) = .ok (ins it)) →
      ctxLookup ctx loopVar = none →
      rs.totalSteps + items.length < rs.maxTotalSteps →
      executeLoopParallel env runSub step loopVar items ctx rs s =
        (.ok (specOrderedResults (fun it => g (ins it)) items,
              { rs with totalSteps := rs.totalSteps + items.length }),
         { s with
             spawnCount := s.spawnCount + items.length
             trace := s.trace ++ items.map (fun it => ⟨step.id, a, ins it⟩) }) ∧
      executeLoopSequential env runSub step loopVar items 0 ctx rs s =
        (.ok (specOrderedResults (fun it => g (ins it)) items, ctx,
              { rs with totalSteps := rs.totalSteps + items.length }),
         { s with
             spawnCount := s.spawnCount + items.length
             trace := s.trace ++ items.map (fun it => ⟨step.id, a, ins it⟩) })) ∧
    (∀ (env : Env) (runSub : SubRunner) (step : Step) (ctx : Ctx)
      (rs : RecursionState) (s : ExecState) (fexpr : String) (items : List Value)
      (a p cname : String) (ins : Value → String) (g : String → Value),
      step.foreach = some fexpr →
      resolveForeachVariable fexpr ctx = .ok (.list items) →
      items ≠ [] → items.length ≤ step.maxIterations →
      step.parallel = true → step.asVar = none →
      step.collect = some cname → cname ≠ "" →
      step.type = "agent" → step.agent = some a → a ≠ "" →
      step.prompt = some p → p ≠ "" → step.mode = none → step.retry = none →
      (∀ n i, env.spawnFn n a i = .ok (g i)) →
      (∀ it ∈ items, substituteVariables p (ctxSet ctx "item" it) = .ok (ins it)) →
      rs.totalSteps + items.length < rs.maxTotalSteps →
      executeLoop env runSub step ctx rs s =
        (.ok (ctxSet ctx cname
                (.list (specOrderedResults (fun it => g (ins it)) items)),
              { rs with totalSteps := rs.totalSteps + items.length }),
         { s with
             spawnCount := s.spawnCount + items.length
             trace := s.trace ++ items.map (fun it => ⟨step.id, a, ins it⟩) })) := by
  constructor
  · intro env runSub step loopVar ctx rs s items a p ins g htype hag ha hpr hp hmode
      hretry hspawn hsub hlv hbudget
    constructor
    · exact executeLoopParallel_ok env runSub step loopVar ctx a p ins g items rs s
        htype hag ha hpr hp hmode hretry hspawn hsub (by omega)
    · exact executeLoopSequential_ok env runSub step loopVar a p ins g htype hag ha
        hpr hp hmode hretry hspawn items 0 ctx rs s hlv hsub hbudget
  · intro env runSub step ctx rs s fexpr items a p cname ins g hf hres hne hlen hpar
      hasv hcollect hcn htype hag ha hpr hp hmode hretry hspawn hsub hbudget
    unfold executeLoop
    rw [hf]
    dsimp only
    rw [hres]
    dsimp only
    have hne' : (items.isEmpty = false) := by
      cases items with
      | nil => exact absurd rfl hne
      | cons x xs => rfl
    rw [hne']
    rw [if_neg (by simp : ¬(false = true))]
    rw [if_neg (by omega : ¬(items.length > step.maxIterations))]
    rw [hasv]
    dsimp only
    rw [hpar]
    rw [if_pos (rfl : true = true)]
    rw [executeLoopParallel_ok env runSub step "item" ctx a p ins g items rs s
      htype hag ha hpr hp hmode hretry hspawn hsub (by omega)]
    have hcol : (truthyOpt step.collect = true) := by
      rw [hcollect]
      simpa [truthyOpt] using hcn
    rw [hcol]
    dsimp only
    rw [hcollect]
    rfl

/-- Witness for C9: a parallel foreach over `["x", "y"]` with prompt
`do {{item}}` and the echo spawner collects `["do x", "do y"]` in input
order. -/
theorem c9_witness :
    executeLoop envEcho noSub
        { id := "loop", agent := some "a", prompt := some "do \x7b\x7bitem\x7d\x7d",
          foreach := some "\x7b\x7bitems\x7d\x7d", parallel := true,
          collect := some "out" }
        [("items", .list [.str "x", .str "y"])] { maxTotalSteps := 100 } {} =
      (.ok (ctxSet [("items", .list [.str "x", .str "y"])] "out"
              (.list [.str "do x", .str "do y"]),
            { maxTotalSteps := 100, totalSteps := 2 }),
       { spawnCount := 2
         trace := [⟨"loop", "a", "do x"⟩, ⟨"loop", "a", "do y"⟩] }) := by
  have h := c9_parallel_collect_in_input_order.2 envEcho noSub
    { id := "loop", agent := some "a", prompt := some "do \x7b\x7bitem\x7d\x7d",
      foreach := some "\x7b\x7bitems\x7d\x7d", parallel := true,
      collect := some "out" }
    [("items", .list [.str "x", .str "y"])] { maxTotalSteps := 100 } {}
    "\x7b\x7bitems\x7d\x7d" [.str "x", .str "y"] "a" "do \x7b\x7bitem\x7d\x7d" "out"
    (fun it => "do " ++ it.pyStr) (fun i => .str i)
    rfl rfl (by simp) (by decide) rfl rfl rfl (by decide) rfl rfl (by decide) rfl
    (by decide) rfl rfl (fun n i => rfl)
    (by
      intro it hit
      rcases (by simpa using hit : it = .str "x" ∨ it = .str "y") with rfl | rfl <;> rfl)
    (by simp)
  rw [h]
  rfl

end Recipes

namespace Recipes

theorem prefOf_iff (p : List Char) : ∀ cs, prefOf p cs = true ↔ ∃ t, cs = p ++ t := by
  induction p with
  | nil =>
    intro cs
    simp [prefOf]
  | cons a ps ih =>
    intro cs
    cases cs with
    | nil =>
      simp [prefOf]
    | cons c cs' =>
      unfold prefOf
      rw [Bool.and_eq_true, ih cs']
      constructor
      · rintro ⟨hac, t, rfl⟩
        exact ⟨t, by simp [beq_iff_eq] at hac; rw [hac]; rfl⟩
      · rintro ⟨t, ht⟩
        injection ht with h1 h2
        exact ⟨by simp [beq_iff_eq, h1], t, h2⟩

theorem occIn_nil {pat : List Char} (h : occIn pat []) : pat = [] := by
  obtain ⟨xs, ys, hxy⟩ := h
  have hl := congrArg List.length hxy
  simp at hl
  exact List.length_eq_zero.mp (by omega)

end Recipes

namespace Recipes

theorem occIn_cons {pat cs : List Char} (c : Char) (h : occIn pat cs) :
    occIn pat (c :: cs) := by
  obtain ⟨xs, ys, rfl⟩ := h
  exact ⟨c :: xs, ys, rfl⟩

theorem occIn_cons_iff {pat : List Char} {c : Char} {cs : List Char} :
    occIn pat (c :: cs) ↔ (∃ t, c :: cs = pat ++ t) ∨ occIn pat cs := by
  constructor
  · rintro ⟨xs, ys, hxy⟩
    cases xs with
    | nil => exact .inl ⟨ys, by simpa using hxy⟩
    | cons x xs' =>
      injection hxy with h1 h2
      exact .inr ⟨xs', ys, h2⟩
  · rintro (⟨t, ht⟩ | h)
    · exact ⟨[], t, by simpa using ht⟩
    · exact occIn_cons c h

theorem splitFirst_none_iff (pat : List Char) (hp : pat ≠ []) :
    ∀ cs, splitFirst pat cs = none ↔ ¬occIn pat cs := by
  intro cs
  induction cs with
  | nil =>
    unfold splitFirst
    rw [if_neg (by simpa using hp)]
    simp only [true_iff]
    intro h
    exact hp (occIn_nil h)
  | cons c cs' ih =>
    unfold splitFirst
    by_cases hpre : prefOf pat (c :: cs') = true
    · rw [if_pos hpre]
      obtain ⟨t, ht⟩ := (prefOf_iff pat (c :: cs')).mp hpre
      have hocc : occIn pat (c :: cs') := ⟨[], t, by simpa using ht⟩
      simp [hocc]
    · rw [if_neg hpre]
      rw [occIn_cons_iff]
      constructor
      · intro hnone
        rintro (⟨t, ht⟩ | hocc)
        · exact hpre ((prefOf_iff pat (c :: cs')).mpr ⟨t, ht⟩)
        · rcases hsf : splitFirst pat cs' with _ | ⟨l, r⟩
          · exact (ih.mp hsf) hocc
          · rw [hsf] at hnone; exact absurd hnone (by simp)
      · intro hnocc
        have h2 : splitFirst pat cs' = none := ih.mpr (fun h => hnocc (.inr h))
        rw [h2]

end Recipes

namespace Recipes

/-- An occurrence of a pattern that avoids a separator character lies
entirely on one side of that separator. -/
theorem occIn_split_single {pat : List Char} {a : Char} (hpa : ∀ c ∈ pat, c ≠ a) :
    ∀ (xs : List Char) (u : List Char) (ys v : List Char),
      xs ++ a :: ys = u ++ pat ++ v → occIn pat xs ∨ occIn pat ys := by
  intro xs
  induction xs with
  | nil =>
    intro u ys v huv
    cases u with
    | nil =>
      simp only [List.nil_append] at huv
      cases pat with
      | nil => exact .inl ⟨[], [], rfl⟩
      | cons p pr =>
        injection huv with h1 h2
        exact absurd h1.symm (hpa p (by simp))
    | cons c u' =>
      simp only [List.nil_append, List.cons_append] at huv
      injection huv with h1 h2
      exact .inr ⟨u', v, h2⟩
  | cons x xs' ih =>
    intro u ys v huv
    cases u with
    | nil =>
      simp only [List.nil_append] at huv
      by_cases hle : pat.length ≤ (x :: xs').length
      · left
        have htake := congrArg (List.take pat.length) huv
        rw [List.take_append_of_le_length hle, List.take_left] at htake
        have hsplit : x :: xs' = pat ++ (x :: xs').drop pat.length := by
          conv_lhs => rw [← List.take_append_drop pat.length (x :: xs')]
          rw [htake]
        exact ⟨[], (x :: xs').drop pat.length, by rw [List.nil_append]; exact hsplit⟩
      · exfalso
        push_neg at hle
        have hdrop := congrArg (List.drop (x :: xs').length) huv
        rw [List.drop_left] at hdrop
        rw [List.drop_append_eq_append_drop,
          Nat.sub_eq_zero_of_le (Nat.le_of_lt hle), List.drop_zero] at hdrop
        rcases hpd : pat.drop (x :: xs').length with _ | ⟨b, t⟩
        · have := List.drop_eq_nil_iff_le.mp hpd
          omega
        · rw [hpd] at hdrop
          simp only [List.cons_append] at hdrop
          injection hdrop with h1 h2
          exact hpa b (List.drop_subset _ _ (by rw [hpd]; simp)) h1.symm
    | cons c u' =>
      simp only [List.cons_append] at huv
      injection huv with h1 h2
      rcases ih u' ys v h2 with h | h
      · exact .inl (occIn_cons x h)
      · exact .inr h

end Recipes

namespace Recipes

theorem prefOf_append_self (p : List Char) (t : List Char) : prefOf p (p ++ t) = true := by
  induction p with
  | nil => rfl
  | cons a ps ih => simp [prefOf, ih]

/-- `s.split(pat, 1)` splits at the first occurrence: if no occurrence
starts strictly before the exhibited one, the split is around it. -/
theorem splitFirst_first {pat : List Char} (hp : pat ≠ []) :
    ∀ (A B : List Char), ¬occIn pat (A ++ pat.dropLast) →
      splitFirst pat (A ++ pat ++ B) = some (A, B) := by
  intro A
  induction A with
  | nil =>
    intro B _
    rcases hpc : pat with _ | ⟨p, pr⟩
    · exact absurd hpc hp
    · rw [List.nil_append]
      show splitFirst (p :: pr) (p :: (pr ++ B)) = some ([], B)
      unfold splitFirst
      rw [if_pos (by
        have := prefOf_append_self (p :: pr) B
        simpa using this)]
      simp
  | cons x A' ih =>
    intro B hno
    have hlast := List.dropLast_append_getLast hp
    have hnpre : ¬(prefOf pat (x :: A' ++ pat ++ B) = true) := by
      intro hpre
      obtain ⟨t, ht⟩ := (prefOf_iff pat _).mp hpre
      apply hno
      have hle : pat.length ≤ (x :: A' ++ pat.dropLast).length := by
        have h1 : 1 ≤ (x :: A').length := by simp
        have h2 : pat.dropLast.length = pat.length - 1 := by simp
        simp only [List.length_append, h2]
        have h3 : 1 ≤ pat.length := by
          cases pat with
          | nil => exact absurd rfl hp
          | cons _ _ => simp
        simp only [List.length_cons] at h1 ⊢
        omega
      have harr : x :: A' ++ pat ++ B =
          (x :: A' ++ pat.dropLast) ++ ([pat.getLast hp] ++ B) := by
        calc x :: A' ++ pat ++ B
            = x :: A' ++ (pat.dropLast ++ [pat.getLast hp]) ++ B := by rw [hlast]
          _ = (x :: A' ++ pat.dropLast) ++ ([pat.getLast hp] ++ B) := by simp
      have htake := congrArg (List.take pat.length) ht
      rw [List.take_left] at htake
      rw [harr, List.take_append_of_le_length hle] at htake
      refine ⟨[], (x :: A' ++ pat.dropLast).drop pat.length, ?_⟩
      rw [List.nil_append]
      calc x :: A' ++ pat.dropLast
          = List.take pat.length (x :: A' ++ pat.dropLast) ++
              List.drop pat.length (x :: A' ++ pat.dropLast) :=
            (List.take_append_drop _ _).symm
        _ = pat ++ List.drop pat.length (x :: A' ++ pat.dropLast) := by rw [htake]
    show splitFirst pat (x :: (A' ++ pat ++ B)) = some (x :: A', B)
    unfold splitFirst
    rw [if_neg (by simpa using hnpre)]
    have hno' : ¬occIn pat (A' ++ pat.dropLast) := fun h => hno (occIn_cons x h)
    rw [ih B hno']

end Recipes

namespace Recipes

theorem pyStrip_cons_ws {c : Char} (hc : pyWs c = true) (cs : List Char) :
    pyStrip (c :: cs) = pyStrip cs := by
  unfold pyStrip
  rw [List.dropWhile_cons, if_pos hc]

theorem pyStrip_snoc_ws {d : Char} (hd : pyWs d = true) :
    ∀ cs, pyStrip (cs ++ [d]) = pyStrip cs := by
  intro cs
  induction cs with
  | nil =>
    show pyStrip [d] = pyStrip []
    unfold pyStrip
    rw [List.dropWhile_cons, if_pos hd]
  | cons c cs' ih =>
    by_cases hc : pyWs c = true
    · rw [List.cons_append, pyStrip_cons_ws hc, pyStrip_cons_ws hc, ih]
    · rw [List.cons_append]
      unfold pyStrip
      rw [List.dropWhile_cons, if_neg hc, List.dropWhile_cons, if_neg hc]
      have hrev : (c :: (cs' ++ [d])).reverse = d :: (c :: cs').reverse := by
        simp
      rw [hrev, List.dropWhile_cons, if_pos hd]

theorem pyStrip_sandwich {c d : Char} (hc : pyWs c = false) (hd : pyWs d = false)
    (mid : List Char) : pyStrip (c :: mid ++ [d]) = c :: mid ++ [d] := by
  rw [List.cons_append]
  unfold pyStrip
  rw [List.dropWhile_cons, if_neg (by simp [hc])]
  have hrev : (c :: (mid ++ [d])).reverse = d :: (mid.reverse ++ [c]) := by simp
  rw [hrev, List.dropWhile_cons, if_neg (by simp [hd])]
  simp

theorem lastD_concat (c : Char) (mid : List Char) (d x : Char) :
    lastD (c :: mid ++ [d]) x = d := by
  unfold lastD
  have hrev : (c :: mid ++ [d]).reverse = d :: (mid.reverse ++ [c]) := by simp
  rw [hrev]

theorem parseValue_of_strip {t0 mid : List Char}
    (h : pyStrip t0 = q1 :: mid ++ [q1]) : parseValue t0 = .vstr mid := by
  unfold parseValue
  rw [h]
  show (if (q1 == q1 && lastD (q1 :: mid ++ [q1]) q2 == q1) = true then
      Tok.vstr (mid ++ [q1]).dropLast else _) = Tok.vstr mid
  rw [lastD_concat]
  rw [if_pos (by simp)]
  rw [List.dropLast_concat]

end Recipes

namespace Recipes

/-- Glueing two occurrence-free segments with a single quote between
them stays occurrence-free, for patterns avoiding the quote char. -/
theorem noOcc_glue {pat : List Char} (hpne : pat ≠ []) (hq : ∀ c ∈ pat, c ≠ q1)
    {s t : List Char} (hs : ¬occIn pat s) (ht : ¬occIn pat t) :
    ¬occIn pat (s ++ q1 :: t) := by
  rintro ⟨u, v, huv⟩
  rcases occIn_split_single hq s u t v huv with h | h
  · exact hs h
  · exact ht h

theorem occIn_nil_false {pat : List Char} (hpne : pat ≠ []) : ¬occIn pat [] :=
  fun h => hpne (occIn_nil h)

theorem substAux_ref_step (md : Option Nat)
    (repl : List Char → Except String (List Char)) (f : Nat) (body ref rest : List Char)
    (h : refScan md [] false 0 body = some (ref, rest)) :
    substAux md repl (f + 1) (lb :: lb :: body) =
      bindEx (repl ref) fun r =>
        bindEx (substAux md repl f rest) fun tail => .ok (r ++ tail) := by
  conv_lhs => unfold substAux
  have h1 : (lb == lb) = true := by decide
  rw [if_pos h1]
  dsimp only
  rw [if_pos h1]
  rw [h]

theorem refScan_x (md : Option Nat) (rest : List Char) :
    refScan md [] false 0 ('x' :: rb :: rb :: rest) = some (['x'], rest) := by
  unfold refScan
  rw [if_pos (by decide : wordChar 'x' = true)]
  unfold refScan
  rw [if_neg (by decide : ¬(wordChar rb = true))]
  rw [if_neg (by decide : ¬((!true) = true))]
  rw [if_neg (by decide : ¬((rb == '.') = true))]
  rw [if_pos (by decide : (rb == rb) = true)]
  dsimp only
  rw [if_pos (by decide : (rb == rb) = true)]
  simp

end Recipes

namespace Recipes

/-- Substituting `x` in the condition template used by C5: the string
value is re-quoted and spliced before the comparison tail. -/
theorem exprSubstitute_c5 (s lit : String) (h6 : noBrace lit.data) :
    exprSubstitute ("\x7b\x7bx\x7d\x7d == " ++ (sq ++ lit ++ sq)).data [("x", Value.str s)] =
      .ok (q1 :: (s.data ++ (q1 :: ' ' :: '=' :: '=' :: ' ' :: q1 :: (lit.data ++ [q1])))) := by
  have hE : ("\x7b\x7bx\x7d\x7d == " ++ (sq ++ lit ++ sq)).data =
      lb :: lb :: ('x' :: rb :: rb ::
        (' ' :: '=' :: '=' :: ' ' :: q1 :: (lit.data ++ [q1]))) := by
    simp [sq]
    decide
  unfold exprSubstitute
  rw [hE]
  rw [show (lb :: lb :: ('x' :: rb :: rb ::
      (' ' :: '=' :: '=' :: ' ' :: q1 :: (lit.data ++ [q1])))).length + 1 =
      (('x' :: rb :: rb :: (' ' :: '=' :: '=' :: ' ' :: q1 :: (lit.data ++ [q1]))).length + 2) + 1
    from by simp]
  rw [substAux_ref_step none (exprReplace [("x", Value.str s)])
    (('x' :: rb :: rb :: (' ' :: '=' :: '=' :: ' ' :: q1 :: (lit.data ++ [q1]))).length + 2)
    ('x' :: rb :: rb :: (' ' :: '=' :: '=' :: ' ' :: q1 :: (lit.data ++ [q1])))
    ['x'] (' ' :: '=' :: '=' :: ' ' :: q1 :: (lit.data ++ [q1]))
    (refScan_x none _)]
  have hrepl : exprReplace [("x", Value.str s)] ['x'] = .ok (q1 :: s.data ++ [q1]) := rfl
  rw [hrepl, bindEx_ok]
  have hnb : noBrace (' ' :: '=' :: '=' :: ' ' :: q1 :: (lit.data ++ [q1])) := by
    intro c hc
    simp only [List.mem_cons, List.mem_append, List.mem_singleton] at hc
    rcases hc with rfl | rfl | rfl | rfl | rfl | hc | hc
    · decide
    · decide
    · decide
    · decide
    · decide
    · exact h6 c hc
    · rcases hc with rfl | h
      · decide
      · exact absurd h (by simp)
  rw [substAux_nolb none (exprReplace [("x", Value.str s)]) _ _ hnb (by simp)]
  rw [bindEx_ok]
  simp

end Recipes

namespace Recipes

/-- C5 (counterexample): the original claim is false.  With
`x = "a==b"` and literal `a==b`, the condition `{{x}} == ` followed by
the quoted literal evaluates to `false` although the value equals the
literal character for character: after substitution the expression is
split at the *first* `==`, which lies inside the value.  A value
containing ` or ` does not even compare: the `or`-split produces the
unparseable fragment consisting of a lone quote and `x`. -/
theorem c5_value_containing_operator_defeats_equality :
    evaluateCondition ("\x7b\x7bx\x7d\x7d == " ++ (sq ++ "a==b" ++ sq))
        [("x", Value.str "a==b")] = .ok false ∧
    ("a==b" : String) = "a==b" ∧
    evaluateCondition ("\x7b\x7bx\x7d\x7d == " ++ (sq ++ "x or y" ++ sq))
        [("x", Value.str "x or y")] =
      .error ("Invalid expression syntax: " ++ sq ++ "x") :=
  ⟨rfl, rfl, rfl⟩

/-- C5 (amended): exact string equality holds for operator-free
strings.  If neither the variable's value `s` nor the literal `lit`
contains ` or `, ` and ` as a substring (the Python `in`/`split` tests,
embedded as `splitFirst`), `s` contains no `==`, and `lit` contains no
brace, then evaluating `{{x}} == ` with the single-quoted literal
returns exactly the character-for-character comparison of `s` with
`lit`. -/
theorem c5_exact_equality_for_operator_free_strings
    (s lit : String)
    (h1 : splitFirst " or ".data s.data = none)
    (h2 : splitFirst " or ".data lit.data = none)
    (h3 : splitFirst " and ".data s.data = none)
    (h4 : splitFirst " and ".data lit.data = none)
    (h5 : splitFirst "==".data s.data = none)
    (h6 : noBrace lit.data) :
    evaluateCondition ("\x7b\x7bx\x7d\x7d == " ++ (sq ++ lit ++ sq))
        [("x", Value.str s)] = .ok (s.data == lit.data) := by
  have hpo : " or ".data ≠ [] := by decide
  have hpa : " and ".data ≠ [] := by decide
  have hpe : "==".data ≠ [] := by decide
  have hqo : ∀ c ∈ " or ".data, c ≠ q1 := by decide
  have hqa : ∀ c ∈ " and ".data, c ≠ q1 := by decide
  have hqe : ∀ c ∈ "==".data, c ≠ q1 := by decide
  have hso : ¬occIn " or ".data s.data := (splitFirst_none_iff _ hpo _).mp h1
  have hlo : ¬occIn " or ".data lit.data := (splitFirst_none_iff _ hpo _).mp h2
  have hsa : ¬occIn " and ".data s.data := (splitFirst_none_iff _ hpa _).mp h3
  have hla : ¬occIn " and ".data lit.data := (splitFirst_none_iff _ hpa _).mp h4
  have hse : ¬occIn "==".data s.data := (splitFirst_none_iff _ hpe _).mp h5
  have hmo : ¬occIn " or ".data [' ', '=', '=', ' '] :=
    (splitFirst_none_iff _ hpo _).mp rfl
  have hma : ¬occIn " and ".data [' ', '=', '=', ' '] :=
    (splitFirst_none_iff _ hpa _).mp rfl
  unfold evaluateCondition
  have hE : ("\x7b\x7bx\x7d\x7d == " ++ (sq ++ lit ++ sq)).data =
      lb :: lb :: ('x' :: rb :: rb ::
        (' ' :: '=' :: '=' :: ' ' :: q1 :: (lit.data ++ [q1]))) := by
    simp [sq]
    decide
  have hnemp : (pyStrip ("\x7b\x7bx\x7d\x7d == " ++ (sq ++ lit ++ sq)).data).isEmpty = false := by
    rw [hE]
    rw [show lb :: lb :: ('x' :: rb :: rb ::
        (' ' :: '=' :: '=' :: ' ' :: q1 :: (lit.data ++ [q1]))) =
      (lb :: ([lb, 'x', rb, rb, ' ', '=', '=', ' ', q1] ++ lit.data)) ++ [q1] from by simp]
    rw [pyStrip_sandwich (by decide) (by decide)]
    simp
  rw [if_neg (show ¬((pyStrip ("\x7b\x7bx\x7d\x7d == " ++ (sq ++ lit ++ sq)).data).isEmpty = true)
    from by rw [hnemp]; simp)]
  rw [exprSubstitute_c5 s lit h6, bindEx_ok]
  have hF : q1 :: (s.data ++ (q1 :: ' ' :: '=' :: '=' :: ' ' :: q1 :: (lit.data ++ [q1]))) =
      (q1 :: (s.data ++ ([q1, ' ', '=', '=', ' ', q1] ++ lit.data))) ++ [q1] := by
    simp
  have hstrip : pyStrip
      (q1 :: (s.data ++ (q1 :: ' ' :: '=' :: '=' :: ' ' :: q1 :: (lit.data ++ [q1])))) =
      q1 :: (s.data ++ (q1 :: ' ' :: '=' :: '=' :: ' ' :: q1 :: (lit.data ++ [q1]))) := by
    rw [hF]
    exact pyStrip_sandwich (by decide) (by decide) _
  have hor : splitFirst " or ".data
      (q1 :: (s.data ++ (q1 :: ' ' :: '=' :: '=' :: ' ' :: q1 :: (lit.data ++ [q1])))) =
      none := by
    refine (splitFirst_none_iff _ hpo _).mpr ?_
    have n1 : ¬occIn " or ".data (lit.data ++ q1 :: []) :=
      noOcc_glue hpo hqo hlo (occIn_nil_false hpo)
    have n2 : ¬occIn " or ".data ([' ', '=', '=', ' '] ++ q1 :: (lit.data ++ [q1])) :=
      noOcc_glue hpo hqo hmo n1
    have n3 : ¬occIn " or ".data
        (s.data ++ q1 :: ([' ', '=', '=', ' '] ++ q1 :: (lit.data ++ [q1]))) :=
      noOcc_glue hpo hqo hso n2
    have n4 : ¬occIn " or ".data
        ([] ++ q1 :: (s.data ++ q1 :: ([' ', '=', '=', ' '] ++ q1 :: (lit.data ++ [q1])))) :=
      noOcc_glue hpo hqo (occIn_nil_false hpo) n3
    simpa using n4
  have hand : splitFirst " and ".data
      (q1 :: (s.data ++ (q1 :: ' ' :: '=' :: '=' :: ' ' :: q1 :: (lit.data ++ [q1])))) =
      none := by
    refine (splitFirst_none_iff _ hpa _).mpr ?_
    have n1 : ¬occIn " and ".data (lit.data ++ q1 :: []) :=
      noOcc_glue hpa hqa hla (occIn_nil_false hpa)
    have n2 : ¬occIn " and ".data ([' ', '=', '=', ' '] ++ q1 :: (lit.data ++ [q1])) :=
      noOcc_glue hpa hqa hma n1
    have n3 : ¬occIn " and ".data
        (s.data ++ q1 :: ([' ', '=', '=', ' '] ++ q1 :: (lit.data ++ [q1]))) :=
      noOcc_glue hpa hqa hsa n2
    have n4 : ¬occIn " and ".data
        ([] ++ q1 :: (s.data ++ q1 :: ([' ', '=', '=', ' '] ++ q1 :: (lit.data ++ [q1])))) :=
      noOcc_glue hpa hqa (occIn_nil_false hpa) n3
    simpa using n4
  have heq : splitFirst "==".data
      (q1 :: (s.data ++ (q1 :: ' ' :: '=' :: '=' :: ' ' :: q1 :: (lit.data ++ [q1])))) =
      some ((q1 :: s.data) ++ [q1, ' '], ' ' :: q1 :: (lit.data ++ [q1])) := by
    have hocc : ¬occIn "==".data (((q1 :: s.data) ++ [q1, ' ']) ++ "==".data.dropLast) := by
      have m1 : ¬occIn "==".data [' ', '='] := (splitFirst_none_iff _ hpe _).mp rfl
      have n2 : ¬occIn "==".data (s.data ++ q1 :: [' ', '=']) :=
        noOcc_glue hpe hqe hse m1
      have n3 : ¬occIn "==".data
          ([] ++ q1 :: (s.data ++ q1 :: [' ', '='])) :=
        noOcc_glue hpe hqe (occIn_nil_false hpe) n2
      intro h
      apply n3
      have hsh : ((q1 :: s.data) ++ [q1, ' ']) ++ "==".data.dropLast =
          [] ++ q1 :: (s.data ++ q1 :: [' ', '=']) := by
        simp
      rwa [hsh] at h
    have h0 := splitFirst_first hpe ((q1 :: s.data) ++ [q1, ' '])
      (' ' :: q1 :: (lit.data ++ [q1])) hocc
    have hsh2 : ((q1 :: s.data) ++ [q1, ' ']) ++ "==".data ++ (' ' :: q1 :: (lit.data ++ [q1])) =
        q1 :: (s.data ++ (q1 :: ' ' :: '=' :: '=' :: ' ' :: q1 :: (lit.data ++ [q1]))) := by
      simp
    rwa [hsh2] at h0
  conv_lhs => unfold evalExprAux
  dsimp only
  rw [hstrip, hor, hand, heq]
  dsimp only
  have hpA : parseValue ((q1 :: s.data) ++ [q1, ' ']) = .vstr s.data := by
    apply parseValue_of_strip
    rw [show (q1 :: s.data) ++ [q1, ' '] = ((q1 :: s.data) ++ [q1]) ++ [' '] from by simp]
    rw [pyStrip_snoc_ws (by decide)]
    exact pyStrip_sandwich (by decide) (by decide) _
  have hpB : parseValue (' ' :: q1 :: (lit.data ++ [q1])) = .vstr lit.data := by
    apply parseValue_of_strip
    rw [pyStrip_cons_ws (by decide)]
    rw [show q1 :: (lit.data ++ [q1]) = (q1 :: lit.data) ++ [q1] from by simp]
    exact pyStrip_sandwich (by decide) (by decide) _
  rw [hpA, hpB]
  rfl

/-- Witness for C5 (amended): `x = "hello world"` against the literal
`hello world` compares `true`; all side conditions hold concretely. -/
theorem c5_witness :
    splitFirst " or ".data "hello world".data = none ∧
    splitFirst " and ".data "hello world".data = none ∧
    splitFirst "==".data "hello world".data = none ∧
    noBrace "hello world".data ∧
    evaluateCondition ("\x7b\x7bx\x7d\x7d == " ++ (sq ++ "hello world" ++ sq))
        [("x", Value.str "hello world")] = .ok true :=
  ⟨rfl, rfl, rfl, by unfold noBrace; decide,
    by
      have h := c5_exact_equality_for_operator_free_strings "hello world" "hello world"
        rfl rfl rfl rfl rfl (by unfold noBrace; decide)
      rw [h]
      rfl⟩

end Recipes

namespace Recipes

theorem refScan_word_step (md : Option Nat) {c : Char} (hc : wordChar c = true)
    (acc : List Char) (seen : Bool) (dots : Nat) (t : List Char) :
    refScan md acc seen dots (c :: t) = refScan md (acc ++ [c]) true dots t := by
  conv_lhs => unfold refScan
  rw [if_pos hc]

theorem refScan_words_mid (md : Option Nat) :
    ∀ (k : List Char), (∀ c ∈ k, wordChar c = true) → k ≠ [] →
      ∀ (acc : List Char) (seen : Bool) (dots : Nat) (t : List Char),
        refScan md acc seen dots (k ++ t) = refScan md (acc ++ k) true dots t := by
  intro k
  induction k with
  | nil => intro _ h; exact absurd rfl h
  | cons c k' ih =>
    intro hw _ acc seen dots t
    rw [List.cons_append, refScan_word_step md (hw c (by simp))]
    cases k' with
    | nil => simp
    | cons c2 k2 =>
      rw [ih (fun c hc => hw c (by simp [hc])) (by simp) (acc ++ [c]) true dots t]
      simp

theorem refScan_close (md : Option Nat) (acc : List Char) (dots : Nat) (rest : List Char) :
    refScan md acc true dots (rb :: rb :: rest) = some (acc, rest) := by
  unfold refScan
  rw [if_neg (by decide : ¬(wordChar rb = true))]
  rw [if_neg (by decide : ¬((!true) = true))]
  rw [if_neg (by decide : ¬((rb == '.') = true))]
  rw [if_pos (by decide : (rb == rb) = true)]
  dsimp only
  rw [if_pos (by decide : (rb == rb) = true)]

theorem refScan_dot1 (acc : List Char) (t : List Char) :
    refScan (some 1) acc true 0 ('.' :: t) = refScan (some 1) (acc ++ ['.']) false 1 t := by
  conv_lhs => unfold refScan
  rw [if_neg (by decide : ¬(wordChar '.' = true))]
  rw [if_neg (by decide : ¬((!true) = true))]
  rw [if_pos (by decide : (('.' : Char) == '.') = true)]
  dsimp only
  rw [if_pos (by decide : 0 < 1)]

theorem refScan_dot_fail (acc : List Char) (t : List Char) :
    refScan (some 1) acc true 1 ('.' :: t) = none := by
  conv_lhs => unfold refScan
  rw [if_neg (by decide : ¬(wordChar '.' = true))]
  rw [if_neg (by decide : ¬((!true) = true))]
  rw [if_pos (by decide : (('.' : Char) == '.') = true)]
  dsimp only
  rw [if_neg (by decide : ¬(1 < 1))]

theorem splitDots_no_dot :
    ∀ (k : List Char), (∀ c ∈ k, c ≠ '.') → splitDots k = [k] := by
  intro k
  induction k with
  | nil => intro _; rfl
  | cons c k' ih =>
    intro hd
    unfold splitDots
    rw [if_neg (by simp [hd c (by simp)])]
    rw [ih (fun c hc => hd c (by simp [hc]))]

theorem splitDots_append_dot :
    ∀ (k : List Char) (t : List Char), (∀ c ∈ k, c ≠ '.') →
      splitDots (k ++ '.' :: t) = k :: splitDots t := by
  intro k
  induction k with
  | nil =>
    intro t _
    rw [List.nil_append]
    conv_lhs => unfold splitDots
    rw [if_pos (by decide : (('.' : Char) == '.') = true)]
  | cons c k' ih =>
    intro t hd
    rw [List.cons_append]
    conv_lhs => unfold splitDots
    rw [if_neg (by simp [hd c (by simp)])]
    rw [ih t (fun c hc => hd c (by simp [hc]))]

end Recipes

namespace Recipes

/-- One successfully scanned `\x7b\x7bref\x7d\x7d` between brace-free
segments: the whole pass is determined by the replacement handler. -/
theorem substituteVariables_single_ok (ctx : Ctx) (pre post ref v : List Char)
    (hpre : noBrace pre) (hpost : noBrace post)
    (hscan : refScan (some 1) [] false 0 (ref ++ rb :: rb :: post) = some (ref, post))
    (hrep : substReplace ctx ref = .ok v) :
    substituteVariables (String.mk (pre ++ lb :: lb :: (ref ++ rb :: rb :: post))) ctx =
      .ok (String.mk (pre ++ v ++ post)) := by
  unfold substituteVariables
  show (match substAux (some 1) (substReplace ctx)
      ((pre ++ lb :: lb :: (ref ++ rb :: rb :: post)).length + 1)
      (pre ++ lb :: lb :: (ref ++ rb :: rb :: post)) with
    | .ok cs => Except.ok (String.mk cs)
    | .error e => Except.error e) = Except.ok (String.mk (pre ++ v ++ post))
  rw [substAux_copy (some 1) (substReplace ctx) pre (lb :: lb :: (ref ++ rb :: rb :: post))
    _ hpre (by omega)]
  rw [show (lb :: lb :: (ref ++ rb :: rb :: post)).length + 1 =
    ((ref ++ rb :: rb :: post).length + 2) + 1 from by simp]
  rw [substAux_ref_step (some 1) (substReplace ctx) ((ref ++ rb :: rb :: post).length + 2)
    (ref ++ rb :: rb :: post) ref post hscan]
  rw [hrep, bindEx_ok]
  rw [substAux_nolb (some 1) (substReplace ctx) post _ hpost (by simp; omega)]
  rw [bindEx_ok, bindEx_ok]
  simp

/-- The failing variant: the handler's error aborts the whole pass. -/
theorem substituteVariables_single_err (ctx : Ctx) (pre post ref : List Char) (e : String)
    (hpre : noBrace pre) (hpost : noBrace post)
    (hscan : refScan (some 1) [] false 0 (ref ++ rb :: rb :: post) = some (ref, post))
    (hrep : substReplace ctx ref = .error e) :
    substituteVariables (String.mk (pre ++ lb :: lb :: (ref ++ rb :: rb :: post))) ctx =
      .error e := by
  unfold substituteVariables
  show (match substAux (some 1) (substReplace ctx)
      ((pre ++ lb :: lb :: (ref ++ rb :: rb :: post)).length + 1)
      (pre ++ lb :: lb :: (ref ++ rb :: rb :: post)) with
    | .ok cs => Except.ok (String.mk cs)
    | .error e => Except.error e) = Except.error e
  rw [substAux_copy (some 1) (substReplace ctx) pre (lb :: lb :: (ref ++ rb :: rb :: post))
    _ hpre (by omega)]
  rw [show (lb :: lb :: (ref ++ rb :: rb :: post)).length + 1 =
    ((ref ++ rb :: rb :: post).length + 2) + 1 from by simp]
  rw [substAux_ref_step (some 1) (substReplace ctx) ((ref ++ rb :: rb :: post).length + 2)
    (ref ++ rb :: rb :: post) ref post hscan]
  rw [hrep]
  rfl

/-- A double brace whose reference fails to scan is copied verbatim
when everything after it is brace-free. -/
theorem substAux_ref_fail (md : Option Nat) (repl : List Char → Except String (List Char))
    (c2 : Char) (cs2 : List Char) (hc2 : ¬((c2 == lb) = true))
    (hscan : refScan md [] false 0 (c2 :: cs2) = none)
    (hnb : noBrace (c2 :: cs2)) :
    ∀ f, (lb :: lb :: c2 :: cs2).length < f →
      substAux md repl f (lb :: lb :: c2 :: cs2) = .ok (lb :: lb :: c2 :: cs2) := by
  intro f hf
  match f, hf with
  | f1 + 1, hf =>
    conv_lhs => unfold substAux
    rw [if_pos (by decide : ((lb : Char) == lb) = true)]
    dsimp only
    rw [if_pos (by decide : ((lb : Char) == lb) = true)]
    rw [hscan]
    have hinner : substAux md repl f1 (lb :: c2 :: cs2) = .ok (lb :: c2 :: cs2) := by
      rw [substAux_fuel_eq md repl f1 (lb :: c2 :: cs2) (by simp at hf ⊢; omega)]
      rw [show (lb :: c2 :: cs2).length + 1 = ((c2 :: cs2).length + 1) + 1 from by simp]
      conv_lhs => unfold substAux
      rw [if_pos (by decide : ((lb : Char) == lb) = true)]
      dsimp only
      rw [if_neg hc2]
      rw [substAux_nolb md repl (c2 :: cs2) _ hnb (by simp)]
      rfl
    rw [hinner]
    rfl

end Recipes

namespace Recipes

theorem refScan_simple_ref (k : List Char) (hw : ∀ c ∈ k, wordChar c = true)
    (hne : k ≠ []) (post : List Char) :
    refScan (some 1) [] false 0 (k ++ rb :: rb :: post) = some (k, post) := by
  rw [refScan_words_mid (some 1) k hw hne [] false 0 (rb :: rb :: post)]
  rw [refScan_close]
  simp

theorem refScan_dotted_ref (k1 k2 : List Char)
    (hw1 : ∀ c ∈ k1, wordChar c = true) (hne1 : k1 ≠ [])
    (hw2 : ∀ c ∈ k2, wordChar c = true) (hne2 : k2 ≠ []) (post : List Char) :
    refScan (some 1) [] false 0 ((k1 ++ '.' :: k2) ++ rb :: rb :: post) =
      some (k1 ++ '.' :: k2, post) := by
  rw [show (k1 ++ '.' :: k2) ++ rb :: rb :: post =
    k1 ++ ('.' :: (k2 ++ rb :: rb :: post)) from by simp]
  rw [refScan_words_mid (some 1) k1 hw1 hne1 [] false 0 ('.' :: (k2 ++ rb :: rb :: post))]
  rw [refScan_dot1]
  rw [refScan_words_mid (some 1) k2 hw2 hne2 (([] ++ k1) ++ ['.']) false 1 (rb :: rb :: post)]
  rw [refScan_close]
  simp

theorem refScan_two_dots_fails (k1 k2 k3 : List Char)
    (hw1 : ∀ c ∈ k1, wordChar c = true) (hne1 : k1 ≠ [])
    (hw2 : ∀ c ∈ k2, wordChar c = true) (hne2 : k2 ≠ []) (post : List Char) :
    refScan (some 1) [] false 0 ((k1 ++ '.' :: (k2 ++ '.' :: k3)) ++ rb :: rb :: post) =
      none := by
  rw [show (k1 ++ '.' :: (k2 ++ '.' :: k3)) ++ rb :: rb :: post =
    k1 ++ ('.' :: (k2 ++ ('.' :: (k3 ++ rb :: rb :: post)))) from by simp]
  rw [refScan_words_mid (some 1) k1 hw1 hne1 [] false 0 _]
  rw [refScan_dot1]
  rw [refScan_words_mid (some 1) k2 hw2 hne2 (([] ++ k1) ++ ['.']) false 1 _]
  rw [refScan_dot_fail]

theorem wordChar_ne_lb {c : Char} (hc : wordChar c = true) : c ≠ lb := by
  intro h
  rw [h] at hc
  exact absurd hc (by decide)

theorem wordChar_ne_dot {c : Char} (hc : wordChar c = true) : c ≠ '.' := by
  intro h
  rw [h] at hc
  exact absurd hc (by decide)

theorem substReplace_simple (ctx : Ctx) (k : String)
    (hw : ∀ c ∈ k.data, wordChar c = true) :
    substReplace ctx k.data =
      match ctxLookup ctx k with
      | some v => .ok (Value.pyStr v).data
      | none => .error (undefinedVarMsg k.data ctx) := by
  unfold substReplace
  rw [splitDots_no_dot k.data (fun c hc => wordChar_ne_dot (hw c hc))]
  rw [if_neg (by simp)]

theorem substReplace_dotted (ctx : Ctx) (k1 k2 : String) (d : Ctx) (v : Value)
    (hw1 : ∀ c ∈ k1.data, wordChar c = true)
    (hw2 : ∀ c ∈ k2.data, wordChar c = true)
    (h1 : ctxLookup ctx k1 = some (.dict d)) (h2 : ctxLookup d k2 = some v) :
    substReplace ctx (k1.data ++ '.' :: k2.data) = .ok (Value.pyStr v).data := by
  unfold substReplace
  rw [splitDots_append_dot k1.data k2.data
    (fun c hc => wordChar_ne_dot (hw1 c hc))]
  rw [splitDots_no_dot k2.data (fun c hc => wordChar_ne_dot (hw2 c hc))]
  dsimp only
  rw [if_pos (by simp)]
  have hwp : walkPath ([k1.data, k2.data].map String.mk) (Value.dict ctx) = some v := by
    show walkPath [k1, k2] (Value.dict ctx) = some v
    unfold walkPath
    rw [h1]
    unfold walkPath
    rw [h2]
    rfl
  rw [hwp]

end Recipes

namespace Recipes

theorem substituteVariables_ref_fail (ctx : Ctx) (pre : List Char) (c2 : Char)
    (cs2 : List Char) (hpre : noBrace pre) (hc2 : ¬((c2 == lb) = true))
    (hscan : refScan (some 1) [] false 0 (c2 :: cs2) = none)
    (hnb : noBrace (c2 :: cs2)) :
    substituteVariables (String.mk (pre ++ lb :: lb :: c2 :: cs2)) ctx =
      .ok (String.mk (pre ++ lb :: lb :: c2 :: cs2)) := by
  unfold substituteVariables
  show (match substAux (some 1) (substReplace ctx)
      ((pre ++ lb :: lb :: c2 :: cs2).length + 1)
      (pre ++ lb :: lb :: c2 :: cs2) with
    | .ok cs => Except.ok (String.mk cs)
    | .error e => Except.error e) = Except.ok (String.mk (pre ++ lb :: lb :: c2 :: cs2))
  rw [substAux_copy (some 1) (substReplace ctx) pre (lb :: lb :: c2 :: cs2) _ hpre (by omega)]
  rw [substAux_ref_fail (some 1) (substReplace ctx) c2 cs2 hc2 hscan hnb
    ((lb :: lb :: c2 :: cs2).length + 1) (by omega)]
  rw [bindEx_ok]

/-- C3 (amended): the executor pattern allows at most one dot.
`substitute_variables` replaces a `\x7b\x7bident\x7d\x7d` or
`\x7b\x7bident.ident\x7d\x7d` reference between brace-free segments
with `str(value)`: a top-level key by dict lookup, a one-dot path by
walking the nested dict; a reference that does not resolve raises the
`Undefined variable` error listing the sorted top-level context keys;
and a reference with two (or more) dots such as
`\x7b\x7ba.b.c\x7d\x7d` is not matched at all and is copied through
verbatim, for every context. -/
theorem c3_substitution_limited_to_one_dot :
    (∀ (ctx : Ctx) (pre post : List Char) (k : String) (v : Value),
      noBrace pre → noBrace post →
      k.data ≠ [] → (∀ c ∈ k.data, wordChar c = true) →
      ctxLookup ctx k = some v →
      substituteVariables (String.mk (pre ++ lb :: lb :: (k.data ++ rb :: rb :: post))) ctx =
        .ok (String.mk (pre ++ (Value.pyStr v).data ++ post))) ∧
    (∀ (ctx : Ctx) (pre post : List Char) (k : String),
      noBrace pre → noBrace post →
      k.data ≠ [] → (∀ c ∈ k.data, wordChar c = true) →
      ctxLookup ctx k = none →
      substituteVariables (String.mk (pre ++ lb :: lb :: (k.data ++ rb :: rb :: post))) ctx =
        .error (undefinedVarMsg k.data ctx)) ∧
    (∀ (ctx : Ctx) (pre post : List Char) (k1 k2 : String) (d : Ctx) (v : Value),
      noBrace pre → noBrace post →
      k1.data ≠ [] → (∀ c ∈ k1.data, wordChar c = true) →
      k2.data ≠ [] → (∀ c ∈ k2.data, wordChar c = true) →
      ctxLookup ctx k1 = some (.dict d) → ctxLookup d k2 = some v →
      substituteVariables
          (String.mk (pre ++ lb :: lb :: ((k1.data ++ '.' :: k2.data) ++ rb :: rb :: post)))
          ctx =
        .ok (String.mk (pre ++ (Value.pyStr v).data ++ post))) ∧
    (∀ (ctx : Ctx) (pre post : List Char) (k1 k2 k3 : String),
      noBrace pre → noBrace post →
      k1.data ≠ [] → (∀ c ∈ k1.data, wordChar c = true) →
      k2.data ≠ [] → (∀ c ∈ k2.data, wordChar c = true) →
      (∀ c ∈ k3.data, wordChar c = true) →
      substituteVariables
          (String.mk (pre ++ lb :: lb ::
            ((k1.data ++ '.' :: (k2.data ++ '.' :: k3.data)) ++ rb :: rb :: post))) ctx =
        .ok (String.mk (pre ++ lb :: lb ::
          ((k1.data ++ '.' :: (k2.data ++ '.' :: k3.data)) ++ rb :: rb :: post)))) := by
  refine ⟨?_, ?_, ?_, ?_⟩
  · intro ctx pre post k v hpre hpost hne hw hlook
    apply substituteVariables_single_ok ctx pre post k.data (Value.pyStr v).data hpre hpost
      (refScan_simple_ref k.data hw hne post)
    rw [substReplace_simple ctx k hw, hlook]
  · intro ctx pre post k hpre hpost hne hw hlook
    apply substituteVariables_single_err ctx pre post k.data (undefinedVarMsg k.data ctx)
      hpre hpost (refScan_simple_ref k.data hw hne post)
    rw [substReplace_simple ctx k hw, hlook]
  · intro ctx pre post k1 k2 d v hpre hpost hne1 hw1 hne2 hw2 h1 h2
    apply substituteVariables_single_ok ctx pre post (k1.data ++ '.' :: k2.data)
      (Value.pyStr v).data hpre hpost
      (refScan_dotted_ref k1.data k2.data hw1 hne1 hw2 hne2 post)
    exact substReplace_dotted ctx k1 k2 d v hw1 hw2 h1 h2
  · intro ctx pre post k1 k2 k3 hpre hpost hne1 hw1 hne2 hw2 hw3
    obtain ⟨c2, r1, hk⟩ : ∃ c2 r1, k1.data = c2 :: r1 := by
      cases h : k1.data with
      | nil => exact absurd h hne1
      | cons a b => exact ⟨a, b, rfl⟩
    have hbody : (k1.data ++ '.' :: (k2.data ++ '.' :: k3.data)) ++ rb :: rb :: post =
        c2 :: (r1 ++ '.' :: (k2.data ++ '.' :: k3.data) ++ rb :: rb :: post) := by
      rw [hk]
      simp
    have hc2w : wordChar c2 = true := hw1 c2 (by rw [hk]; simp)
    have hnbB : noBrace (c2 :: (r1 ++ '.' :: (k2.data ++ '.' :: k3.data) ++ rb :: rb :: post)) := by
      intro c hc
      rw [← hbody] at hc
      simp only [List.mem_append, List.mem_cons] at hc
      rcases hc with ((hc | rfl | hc) | (rfl | rfl | hc))
      · exact wordChar_ne_lb (hw1 c hc)
      · decide
      · rcases hc with hc | rfl | hc
        · exact wordChar_ne_lb (hw2 c hc)
        · decide
        · exact wordChar_ne_lb (hw3 c hc)
      · decide
      · decide
      · exact hpost c hc
    have hscan : refScan (some 1) [] false 0
        (c2 :: (r1 ++ '.' :: (k2.data ++ '.' :: k3.data) ++ rb :: rb :: post)) = none := by
      rw [← hbody]
      exact refScan_two_dots_fails k1.data k2.data k3.data hw1 hne1 hw2 hne2 post
    rw [show String.mk (pre ++ lb :: lb ::
        ((k1.data ++ '.' :: (k2.data ++ '.' :: k3.data)) ++ rb :: rb :: post)) =
      String.mk (pre ++ lb :: lb ::
        (c2 :: (r1 ++ '.' :: (k2.data ++ '.' :: k3.data) ++ rb :: rb :: post))) from by
      rw [hbody]]
    exact substituteVariables_ref_fail ctx pre c2
      (r1 ++ '.' :: (k2.data ++ '.' :: k3.data) ++ rb :: rb :: post)
      hpre (by simp [wordChar_ne_lb hc2w]) hscan hnbB

end Recipes

namespace Recipes

/-- Witness for C3 (amended): `Hello \x7b\x7bname\x7d\x7d!` with
`name = "world"` substitutes to `Hello world!`. -/
theorem c3_witness :
    substituteVariables "Hello \x7b\x7bname\x7d\x7d!" [("name", Value.str "world")] =
      .ok "Hello world!" := by
  have h := c3_substitution_limited_to_one_dot.1 [("name", Value.str "world")]
    "Hello ".data "!".data "name" (Value.str "world")
    (by unfold noBrace; decide) (by unfold noBrace; decide)
    (by decide) (by decide) rfl
  exact h

end Recipes
